import Mathlib

/-!
# wrappergen: interface discovery and signature rendering

A shallow embedding of `internal/generator.go`.  Go strings are Lean strings;
the two separators the program searches for, `"/"` and `"[]"`, are ASCII, so the
positions found character by character are the positions Go finds byte by byte.
The parts of `go/types`, `go/ast` and `golang.org/x/tools/go/packages` that the
program observes are modelled by plain data: a loaded package is a record of its
name, its syntax trees, its file set and its definition table.
-/

set_option autoImplicit false

namespace Wrappergen

/-! ## The `strings` functions used by the generator -/

/-- Go `strings.Join(elems, sep)`. -/
def stringsJoin (elems : List String) (sep : String) : String :=
  match elems with
  | [] => ""
  | e :: rest => rest.foldl (fun b s => b ++ sep ++ s) e

/-- Scan of `strings.Replace` for a non-empty `old`: `skip` counts the characters of
the current match still to be dropped. -/
def replaceScan (old new : List Char) : Nat → List Char → List Char
  | _, [] => []
  | skip + 1, _ :: cs => replaceScan old new skip cs
  | 0, c :: cs =>
    if old.isPrefixOf (c :: cs) then new ++ replaceScan old new (old.length - 1) cs
    else c :: replaceScan old new 0 cs

/-- Go `strings.ReplaceAll(s, old, new)`: the non-overlapping instances of `old`,
found left to right, are replaced by `new`; an empty `old` matches before every
character and at the end. -/
def stringsReplaceAll (s old new : String) : String :=
  if old.data = [] then ⟨new.data ++ s.data.flatMap (fun c => c :: new.data)⟩
  else ⟨replaceScan old.data new.data 0 s.data⟩

/-- Go `strings.LastIndex(s, sep)` for a one-character `sep`, scanning from index `i`:
the index of the last occurrence at or after `i`, or `-1`. -/
def lastIndexFrom (sep : Char) : Nat → List Char → Int
  | _, [] => -1
  | i, c :: cs =>
    let later := lastIndexFrom sep (i + 1) cs
    if later = -1 then (if c = sep then (i : Int) else -1) else later

/-- Go `strings.LastIndex(typeStr, "/")`. -/
def stringsLastIndexSlash (s : String) : Int :=
  lastIndexFrom '/' 0 s.data

/-- Source `afterLastSplash`: the text after the last `"/"`, or the whole string. -/
def afterLastSplash (typeStr : String) : String :=
  let lastIndex := stringsLastIndexSlash typeStr
  if lastIndex = -1 then typeStr
  else ⟨typeStr.data.drop (lastIndex + 1).toNat⟩

/-! ## `go/types`: packages, types, signatures -/

/-- A `types.Package`: import path and declared name. -/
structure Package where
  path : String
  name : String
  deriving DecidableEq, Repr

/-- Direction of a channel type. -/
inductive ChanDir where
  | SendRecv
  | SendOnly
  | RecvOnly
  deriving DecidableEq, Repr

/-- The type of a parameter or a result, a `types.Type`: predeclared types and type
literals whose text names no package are `Basic` with that text, a declared type is
`Named` with its package (absent for the types of the universe, such as `error`). -/
inductive GoType where
  | Basic (name : String)
  | Named (pkg : Option Package) (name : String)
  | Pointer (elem : GoType)
  | Slice (elem : GoType)
  | Array (len : Nat) (elem : GoType)
  | Map (key elem : GoType)
  | Chan (dir : ChanDir) (elem : GoType)
  deriving DecidableEq, Repr

/-- The prefix `go/types` writes before the name of a package-level type: the
qualifier's answer followed by a dot, or nothing when the answer is empty or the
type has no package. -/
def packagePrefix (pkg : Option Package) (qf : Package → String) : String :=
  match pkg with
  | none => ""
  | some p =>
    let s := qf p
    if s ≠ "" then s ++ "." else s

/-- Go `types.TypeString(typ, qf)`. -/
def TypeString (typ : GoType) (qf : Package → String) : String :=
  match typ with
  | .Basic name => name
  | .Named pkg name => packagePrefix pkg qf ++ name
  | .Pointer elem => "*" ++ TypeString elem qf
  | .Slice elem => "[]" ++ TypeString elem qf
  | .Array len elem => "[" ++ toString len ++ "]" ++ TypeString elem qf
  | .Map key elem => "map[" ++ TypeString key qf ++ "]" ++ TypeString elem qf
  | .Chan .SendOnly elem => "chan<- " ++ TypeString elem qf
  | .Chan .RecvOnly elem => "<-chan " ++ TypeString elem qf
  | .Chan .SendRecv (.Chan .RecvOnly inner) =>
    "chan (" ++ TypeString (.Chan .RecvOnly inner) qf ++ ")"
  | .Chan .SendRecv elem => "chan " ++ TypeString elem qf

/-- One entry of a `types.Tuple`: a parameter or a result. -/
structure Var where
  name : String
  typ : GoType
  deriving DecidableEq, Repr

/-- A `types.Signature`: parameter tuple, result tuple, variadic flag. -/
structure Signature where
  params : List Var
  results : List Var
  variadic : Bool
  deriving DecidableEq, Repr

/-- What `method.Type()` holds: a signature, or some other type (on which the
assertion `.(*types.Signature)` fails). -/
inductive FuncType where
  | Signature (sig : Signature)
  | Other (typ : GoType)
  deriving DecidableEq, Repr

/-- A `types.Func`. -/
structure Func where
  name : String
  typ : FuncType
  deriving DecidableEq, Repr

/-- A `types.Interface`: `NumMethods()` is the length of `methods`, `Method(i)`
its `i`-th entry. -/
structure TypesInterface where
  methods : List Func
  deriving DecidableEq, Repr

/-- What `obj.Type().Underlying()` holds: an interface type or any other type. -/
inductive Underlying where
  | Interface (iface : TypesInterface)
  | Other (typ : GoType)
  deriving DecidableEq, Repr

/-- A `types.Object` as far as the scanner reads it. -/
structure Object where
  underlying : Underlying
  deriving DecidableEq, Repr

/-! ## `go/ast` and `packages` -/

/-- An `ast.Ident`. -/
structure Ident where
  NamePos : Nat
  Name : String
  deriving DecidableEq, Repr

/-- An `ast.TypeSpec`. -/
structure TypeSpec where
  Name : Ident
  deriving DecidableEq, Repr

/-- An `ast.Spec`. -/
inductive Spec where
  | ImportSpec (path : String)
  | ValueSpec (names : List Ident)
  | TypeSpec (typeSpec : TypeSpec)
  deriving DecidableEq, Repr

/-- An `ast.Decl`. -/
inductive Decl where
  | BadDecl
  | GenDecl (Specs : List Spec)
  | FuncDecl (Name : Ident)
  deriving DecidableEq, Repr

/-- An `ast.File`; `Package` is the position `Pos()` reports. -/
structure File where
  Package : Nat
  Decls : List Decl
  deriving DecidableEq, Repr

/-- A `packages.Package` as loaded with names, types, syntax and type information:
`Fset pos` is `Fset.Position(pos).Filename`, `Defs` is `TypesInfo.Defs`. -/
structure PackagesPackage where
  Name : String
  Syntax : List File
  Fset : Nat → String
  Defs : Ident → Option Object

/-- A Go `map[string]bool`; `none` is the nil map, a later entry for a key is
placed before the earlier ones. -/
abbrev BoolMap := Option (List (String × Bool))

/-- Go `m[key]` on a `map[string]bool`: `false` for a nil map or a missing key.  The
generator tests membership in its exclusion sets by this lookup: `key` is in the set
when the lookup reports `true`. -/
def BoolMap.index (m : BoolMap) (key : String) : Bool :=
  match m with
  | none => false
  | some entries => (entries.lookup key).getD false

/-- Go `m[key] = value` on a map that has been made. -/
def BoolMap.assign (m : BoolMap) (key : String) (value : Bool) : BoolMap :=
  match m with
  | none => none
  | some entries => some ((key, value) :: entries)

/-! ## The generator -/

/-- Source `Method`. -/
structure Method where
  Name : String
  Params : String
  Args : String
  Return : String
  deriving DecidableEq, Repr

/-- Source `Interface`. -/
structure Interface where
  Name : String
  Methods : List Method
  parrentPackage : PackagesPackage
  typeInterface : TypesInterface
  astTypeSpec : TypeSpec

/-- Source `WrapperGenerator`; `foundPackage` is a pointer, `none` when nil. -/
structure WrapperGenerator where
  packagePath : String
  excludeFiles : BoolMap
  excludeInterfaces : BoolMap
  foundPackage : Option PackagesPackage
  foundInterface : List Interface

/-- A Go failure: an `error` value made by `fmt.Errorf` or handed over by the
loader, or the run-time panic of reading through a nil pointer. -/
inductive GoError where
  | Errorf (msg : String)
  | Loader (msg : String)
  | NilDereference
  deriving DecidableEq, Repr

/-- Source `Option`. -/
abbrev GenOption := WrapperGenerator → WrapperGenerator

/-- Source `WithIgnoreFileNames`. -/
def WithIgnoreFileNames (fileNames : List String) : GenOption := fun g =>
  let g := if g.excludeFiles = none then { g with excludeFiles := some [] } else g
  fileNames.foldl (fun g name => { g with excludeFiles := g.excludeFiles.assign name true }) g

/-- Source `WithIgnoreInterfaceNames`. -/
def WithIgnoreInterfaceNames (fileNames : List String) : GenOption := fun g =>
  let g := if g.excludeInterfaces = none then { g with excludeInterfaces := some [] } else g
  fileNames.foldl
    (fun g name => { g with excludeInterfaces := g.excludeInterfaces.assign name true }) g

/-- Source `NewWrapperGenerator`. -/
def NewWrapperGenerator (packagePath : String) (options : List GenOption) : WrapperGenerator :=
  options.foldl (fun g o => o g)
    { packagePath := packagePath, excludeFiles := none, excludeInterfaces := none,
      foundPackage := none, foundInterface := [] }

/-- The closure `parseTypes` hands to `types.TypeString`. -/
def qualifier (foundPackage : PackagesPackage) (p : Package) : String :=
  if p.name = foundPackage.Name then ""
  else afterLastSplash p.name

/-- Body of the loop of `parseTypes` for index `i` of a tuple of length `tupleLen`:
the string appended to `typeStrings`. -/
def parseTypesEntry (foundPackage : PackagesPackage) (tupleLen : Nat)
    (isVariadic withName withType : Bool) (i : Nat) (param : Var) : String :=
  let typeStr := TypeString param.typ (qualifier foundPackage)
  let str := ""
  let str :=
    if withName then
      if isVariadic ∧ (i : Int) = (tupleLen : Int) - 1 then
        let str := str ++ stringsReplaceAll param.name "[]" ""
        if ¬ withType then str ++ "..." else str
      else str ++ param.name
    else str
  let str :=
    if withType then
      if isVariadic ∧ (i : Int) = (tupleLen : Int) - 1 then
        str ++ (" " ++ stringsReplaceAll typeStr "[]" "...")
      else str ++ (" " ++ typeStr)
    else str
  str

/-- The loop of `parseTypes`: `i` is the index of the head of the remaining tuple. -/
def parseTypesLoop (foundPackage : PackagesPackage) (tupleLen : Nat)
    (isVariadic withName withType : Bool) : Nat → List Var → List String → List String
  | _, [], typeStrings => typeStrings
  | i, param :: rest, typeStrings =>
    parseTypesLoop foundPackage tupleLen isVariadic withName withType (i + 1) rest
      (typeStrings ++ [parseTypesEntry foundPackage tupleLen isVariadic withName withType i param])

/-- Source `parseTypes`.  The qualifier reads `g.foundPackage.Name`; the generator
reaches this method only after `getPackage` has stored the package, and a nil
package is reported as the panic of the dereference. -/
def parseTypes (g : WrapperGenerator) (tuple : List Var)
    (isVariadic withName withType : Bool) : Except GoError (List String) :=
  match g.foundPackage with
  | none => .error .NilDereference
  | some foundPackage =>
    .ok (parseTypesLoop foundPackage tuple.length isVariadic withName withType 0 tuple [])

/-- Source `parseMethodParams`. -/
def parseMethodParams (g : WrapperGenerator) (method : Func) :
    Except GoError (String × String) :=
  match method.typ with
  | .Other _ => .error (.Errorf "invalid method type")
  | .Signature sig => do
    let paramsList := sig.params
    let params ← parseTypes g paramsList sig.variadic true true
    let args ← parseTypes g paramsList sig.variadic true false
    pure (stringsJoin params ", ", stringsJoin args ", ")

/-- Source `parseReturnType`. -/
def parseReturnType (g : WrapperGenerator) (method : Func) : Except GoError String :=
  match method.typ with
  | .Other _ => .error (.Errorf "invalid method type")
  | .Signature sig => do
    let tuple := sig.results
    let returns ← parseTypes g tuple sig.variadic false true
    pure (stringsJoin returns ", ")

/-- The loop of `parseMethods` over the methods not yet visited. -/
def parseMethodsLoop (g : WrapperGenerator) :
    List Func → List Method → Except GoError (List Method)
  | [], methods => .ok methods
  | method :: rest, methods => do
    let (params, args) ← parseMethodParams g method
    let returnType ← parseReturnType g method
    parseMethodsLoop g rest
      (methods ++ [{ Name := method.name, Params := params, Args := args, Return := returnType }])

/-- Source `parseMethods`. -/
def parseMethods (g : WrapperGenerator) (iface : Interface) : Except GoError (List Method) :=
  parseMethodsLoop g iface.typeInterface.methods []

/-- Innermost loop body of `loadAllInterfaces`: one spec of a general declaration. -/
def scanSpec (g : WrapperGenerator) (foundPackage : PackagesPackage)
    (ifaces : List Interface) (spec : Spec) : List Interface :=
  match spec with
  | .TypeSpec typeSpec =>
    match foundPackage.Defs typeSpec.Name with
    | none => ifaces
    | some obj =>
      match obj.underlying with
      | .Interface iface =>
        if g.excludeInterfaces.index typeSpec.Name.Name then ifaces
        else ifaces ++ [{ Name := typeSpec.Name.Name, Methods := [],
                          parrentPackage := foundPackage, typeInterface := iface,
                          astTypeSpec := typeSpec }]
      | .Other _ => ifaces
  | _ => ifaces

/-- Middle loop body of `loadAllInterfaces`: one declaration of a file. -/
def scanDecl (g : WrapperGenerator) (foundPackage : PackagesPackage)
    (ifaces : List Interface) (decl : Decl) : List Interface :=
  match decl with
  | .GenDecl specs => specs.foldl (scanSpec g foundPackage) ifaces
  | _ => ifaces

/-- Outer loop body of `loadAllInterfaces`: one syntax tree. -/
def scanFile (g : WrapperGenerator) (foundPackage : PackagesPackage)
    (ifaces : List Interface) (file : File) : List Interface :=
  let fileName := afterLastSplash (foundPackage.Fset file.Package)
  if g.excludeFiles.index fileName then ifaces
  else file.Decls.foldl (scanDecl g foundPackage) ifaces

/-- Source `loadAllInterfaces`. -/
def loadAllInterfaces (g : WrapperGenerator) : Except GoError (List Interface) :=
  match g.foundPackage with
  | none => .error .NilDereference
  | some foundPackage => .ok (foundPackage.Syntax.foldl (scanFile g foundPackage) [])

/-- The answer of the external loader: `packages.Load` returns `pkgs` and `err`;
`printErrors` is what `packages.PrintErrors(pkgs)` reports. -/
structure LoadResult where
  pkgs : List PackagesPackage
  err : Option GoError
  printErrors : Nat

/-- Source `getPackage`, with the loader as a parameter: the error returned and
the generator afterwards. -/
def getPackage (load : String → LoadResult) (g : WrapperGenerator) :
    Option GoError × WrapperGenerator :=
  let r := load g.packagePath
  match r.err with
  | some err => (some err, g)
  | none =>
    if r.printErrors > 0 ∨ r.pkgs.length = 0 then
      (some (.Errorf ("failed to load package " ++ g.packagePath)), g)
    else (none, { g with foundPackage := r.pkgs.head? })

/-- The loop of `ParseData`: fills `Methods` of each interface in turn. -/
def parseDataLoop (g : WrapperGenerator) :
    List Interface → Except GoError (List Interface)
  | [] => .ok []
  | iface :: rest => do
    let methods ← parseMethods g iface
    let rest ← parseDataLoop g rest
    pure ({ iface with Methods := methods } :: rest)

/-- Source `ParseData`, with the loader as a parameter: the returned package name
and interface list or the error, and the generator afterwards.  Each failing return
of the source is `"", nil, err`, the outcome `.error err` here. -/
def ParseData (load : String → LoadResult) (g : WrapperGenerator) :
    Except GoError (String × List Interface) × WrapperGenerator :=
  match getPackage load g with
  | (some err, g) => (.error err, g)
  | (none, g) =>
    match loadAllInterfaces g with
    | .error err => (.error err, g)
    | .ok interfaceList =>
      match parseDataLoop g interfaceList with
      | .error err => (.error err, g)
      | .ok interfaceList =>
        let g := { g with foundInterface := interfaceList }
        match g.foundPackage with
        | none => (.error .NilDereference, g)
        | some foundPackage => (.ok (foundPackage.Name, g.foundInterface), g)

/-! ## Concrete inputs -/

/-- A loaded package named `example` with no files. -/
def examplePackage : PackagesPackage :=
  { Name := "example", Syntax := [], Fset := fun _ => "", Defs := fun _ => none }

/-- A generator that has loaded `examplePackage`. -/
def exampleGenerator : WrapperGenerator :=
  { packagePath := "./example", excludeFiles := none, excludeInterfaces := none,
    foundPackage := some examplePackage, foundInterface := [] }

/-- An interface handle of `examplePackage` with no methods. -/
def exampleInterface : Interface :=
  { Name := "I", Methods := [], parrentPackage := examplePackage, typeInterface := ⟨[]⟩,
    astTypeSpec := ⟨⟨1, "I"⟩⟩ }

/-- A module with three files: `example.go` declares the interface `TestInterface`
and the struct `Config`, `mock.go` the interface `MockStore`, `store.go` the
interfaces `Hidden` and `Store` and the type `Pending`, which has no resolved type. -/
def scanPackage : PackagesPackage :=
  { Name := "example"
    Syntax :=
      [ { Package := 1
          Decls := [.GenDecl [.ImportSpec "context"],
                    .GenDecl [.TypeSpec ⟨⟨30, "TestInterface"⟩⟩, .TypeSpec ⟨⟨60, "Config"⟩⟩],
                    .FuncDecl ⟨80, "helper"⟩] },
        { Package := 101
          Decls := [.GenDecl [.TypeSpec ⟨⟨130, "MockStore"⟩⟩]] },
        { Package := 201
          Decls := [.GenDecl [.TypeSpec ⟨⟨230, "Hidden"⟩⟩],
                    .GenDecl [.ValueSpec [⟨240, "limit"⟩]],
                    .GenDecl [.TypeSpec ⟨⟨250, "Pending"⟩⟩, .TypeSpec ⟨⟨270, "Store"⟩⟩]] } ]
    Fset := fun pos =>
      if pos ≤ 100 then "/src/example/example.go"
      else if pos ≤ 200 then "/src/example/mock.go"
      else "/src/example/store.go"
    Defs := fun ident =>
      if ident.Name = "Config" then some ⟨.Other (.Basic "struct")⟩
      else if ident.Name = "Pending" then none
      else if ident.Name = "TestInterface" then
        some ⟨.Interface ⟨[⟨"TestMethod2",
          .Signature ⟨[⟨"ctx", .Named (some ⟨"context", "context"⟩) "Context"⟩],
                      [⟨"", .Named none "error"⟩], false⟩⟩]⟩⟩
      else some ⟨.Interface ⟨[]⟩⟩ }

/-- A generator configured to skip the file `mock.go` and the interface `Hidden`,
holding `scanPackage`. -/
def scanGenerator : WrapperGenerator :=
  { NewWrapperGenerator "./example"
      [WithIgnoreFileNames ["mock.go"], WithIgnoreInterfaceNames ["Hidden"]] with
    foundPackage := some scanPackage }

/-- A loader that answers every path with `scanPackage` and no diagnostics. -/
def scanLoad : String → LoadResult :=
  fun _ => { pkgs := [scanPackage], err := none, printErrors := 0 }

/-! ## The scan as the specification words it -/

/-- The type declarations of one declaration, in order. -/
def declTypeSpecs (decl : Decl) : List TypeSpec :=
  match decl with
  | .GenDecl specs =>
    specs.filterMap (fun spec =>
      match spec with
      | .TypeSpec typeSpec => some typeSpec
      | _ => none)
  | _ => []

/-- The top-level type declarations of a syntax tree, in declaration order. -/
def fileTypeSpecs (file : File) : List TypeSpec :=
  file.Decls.flatMap declTypeSpecs

/-- The interface type a declaration resolves to: present when the declaration has
a resolved type and the underlying type of it is an interface. -/
def resolvedInterface (foundPackage : PackagesPackage) (typeSpec : TypeSpec) :
    Option TypesInterface :=
  match foundPackage.Defs typeSpec.Name with
  | some obj =>
    match obj.underlying with
    | .Interface iface => some iface
    | .Other _ => none
  | none => none

/-- The base name of the source file of a syntax tree. -/
def fileBaseName (foundPackage : PackagesPackage) (file : File) : String :=
  afterLastSplash (foundPackage.Fset file.Package)

/-- The interface handle owed to a type declaration of `file`: one handle when the
declaration resolves to an interface, the base name of the file is not in
`excludeFiles` and the declared name is not in `excludeInterfaces`; none otherwise. -/
def expectedInterface (g : WrapperGenerator) (foundPackage : PackagesPackage) (file : File)
    (typeSpec : TypeSpec) : Option Interface :=
  match resolvedInterface foundPackage typeSpec with
  | some iface =>
    if g.excludeFiles.index (fileBaseName foundPackage file) = false ∧
        g.excludeInterfaces.index typeSpec.Name.Name = false then
      some { Name := typeSpec.Name.Name, Methods := [], parrentPackage := foundPackage,
             typeInterface := iface, astTypeSpec := typeSpec }
    else none
  | none => none

/-- The result the specification asks of the scan: the handles owed to the type
declarations, in syntax-tree order, then declaration order. -/
def expectedInterfaces (g : WrapperGenerator) (foundPackage : PackagesPackage) :
    List Interface :=
  foundPackage.Syntax.flatMap
    (fun file => (fileTypeSpecs file).filterMap (expectedInterface g foundPackage file))

/-- The handle the inner loop appends for a type declaration of a scanned file. -/
def selectSpec (g : WrapperGenerator) (fp : PackagesPackage) (typeSpec : TypeSpec) :
    Option Interface :=
  match resolvedInterface fp typeSpec with
  | some iface =>
    if g.excludeInterfaces.index typeSpec.Name.Name then none
    else some { Name := typeSpec.Name.Name, Methods := [], parrentPackage := fp,
                typeInterface := iface, astTypeSpec := typeSpec }
  | none => none

/-- The handle `iface` stems from a type declaration that sits in a file of the
package whose base name `excludeFiles` lets through, under a name that
`excludeInterfaces` lets through. -/
def StemsFromAdmitted (g : WrapperGenerator) (foundPackage : PackagesPackage)
    (iface : Interface) : Prop :=
  g.excludeInterfaces.index iface.Name = false ∧
  iface.Name = iface.astTypeSpec.Name.Name ∧
  ∃ file ∈ foundPackage.Syntax,
    g.excludeFiles.index (fileBaseName foundPackage file) = false ∧
    iface.astTypeSpec ∈ fileTypeSpecs file

/-- What identifies a handle apart from the package it points back to. -/
def Interface.key (iface : Interface) : String × TypesInterface × TypeSpec × List Method :=
  (iface.Name, iface.typeInterface, iface.astTypeSpec, iface.Methods)

/-- The package without the syntax trees whose base name is in `excludeFiles`. -/
def withoutExcludedFiles (g : WrapperGenerator) (foundPackage : PackagesPackage) :
    PackagesPackage :=
  { foundPackage with
    Syntax := foundPackage.Syntax.filter
      (fun file => !g.excludeFiles.index (fileBaseName foundPackage file)) }

/-- A module with one file declaring the interfaces `Good`, with the method `Ok()`,
and `Broken`, whose method `Bad` has a type that is not a signature. -/
def brokenPackage : PackagesPackage :=
  { Name := "example"
    Syntax :=
      [ { Package := 1
          Decls := [.GenDecl [.TypeSpec ⟨⟨10, "Good"⟩⟩, .TypeSpec ⟨⟨30, "Broken"⟩⟩]] } ]
    Fset := fun _ => "/src/example/broken.go"
    Defs := fun ident =>
      if ident.Name = "Broken" then some ⟨.Interface ⟨[⟨"Bad", .Other (.Basic "int")⟩]⟩⟩
      else some ⟨.Interface ⟨[⟨"Ok", .Signature ⟨[], [], false⟩⟩]⟩⟩ }

/-- A loader that answers every path with `brokenPackage` and no diagnostics. -/
def brokenLoad : String → LoadResult :=
  fun _ => { pkgs := [brokenPackage], err := none, printErrors := 0 }

/-- A loader that answers every path with `scanPackage` and one diagnostic. -/
def diagnosticLoad : String → LoadResult :=
  fun _ => { pkgs := [scanPackage], err := none, printErrors := 1 }

/-- A loader that fails on every path. -/
def failingLoad : String → LoadResult :=
  fun _ => { pkgs := [], err := some (.Loader "no such package"), printErrors := 0 }

/-- A module with two files of the same base name in different directories, each
declaring one interface. -/
def twinPackage : PackagesPackage :=
  { Name := "example"
    Syntax :=
      [ { Package := 1, Decls := [.GenDecl [.TypeSpec ⟨⟨10, "First"⟩⟩]] },
        { Package := 101, Decls := [.GenDecl [.TypeSpec ⟨⟨110, "Second"⟩⟩]] } ]
    Fset := fun pos =>
      if pos ≤ 100 then "/src/example/a/mock.go" else "/src/example/b/mock.go"
    Defs := fun _ => some ⟨.Interface ⟨[]⟩⟩ }

/-! ## Options and keys -/

/-- Whether `key` is a key of the map: `false` for a nil map. -/
def BoolMap.hasKey (m : BoolMap) (key : String) : Bool :=
  match m with
  | none => false
  | some entries => (entries.lookup key).isSome

/-- Every key of the map holds `true`. -/
def BoolMap.OnlyTrue (m : BoolMap) : Prop :=
  ∀ key, m.hasKey key = true → m.index key = true

/-- A call of one of the two option constructors of the package. -/
inductive OptionCall where
  | IgnoreFileNames (fileNames : List String)
  | IgnoreInterfaceNames (fileNames : List String)
  deriving DecidableEq, Repr

/-- The option a constructor call returns. -/
def OptionCall.option : OptionCall → GenOption
  | .IgnoreFileNames fileNames => WithIgnoreFileNames fileNames
  | .IgnoreInterfaceNames fileNames => WithIgnoreInterfaceNames fileNames

/-- A generator configured like `scanGenerator`, holding `twinPackage`. -/
def twinGenerator : WrapperGenerator :=
  { NewWrapperGenerator "./example"
      [WithIgnoreFileNames ["mock.go"], WithIgnoreInterfaceNames ["Hidden"]] with
    foundPackage := some twinPackage }

/-! ## Rendering of a tuple -/

/-- The entry `parseTypes` writes for a parameter that is not treated as the
variadic one. -/
def plainEntry (foundPackage : PackagesPackage) (withName withType : Bool) (param : Var) :
    String :=
  (if withName then param.name else "") ++
    (if withType then " " ++ TypeString param.typ (qualifier foundPackage) else "")

/-- The entry `parseTypes` writes for the last parameter of a variadic tuple. -/
def variadicEntry (foundPackage : PackagesPackage) (withName withType : Bool) (param : Var) :
    String :=
  (if withName then
      stringsReplaceAll param.name "[]" "" ++ (if withType then "" else "...")
    else "") ++
    (if withType then
      " " ++ stringsReplaceAll (TypeString param.typ (qualifier foundPackage)) "[]" "..."
    else "")

theorem parseTypesEntry_plain (fp : PackagesPackage) (len : Nat) (v wn wt : Bool) (i : Nat)
    (p : Var) (h : v = false ∨ i + 1 ≠ len) :
    parseTypesEntry fp len v wn wt i p = plainEntry fp wn wt p := by
  have hc : ¬ (v = true ∧ (i : Int) = (len : Int) - 1) := by
    rintro ⟨hv, hi⟩
    rcases h with h | h
    · simp [h] at hv
    · omega
  unfold parseTypesEntry plainEntry
  cases wn <;> cases wt <;> simp [hc]

theorem parseTypesEntry_variadic (fp : PackagesPackage) (len : Nat) (wn wt : Bool) (i : Nat)
    (p : Var) (h : i + 1 = len) :
    parseTypesEntry fp len true wn wt i p = variadicEntry fp wn wt p := by
  have hc : (i : Int) = (len : Int) - 1 := by omega
  unfold parseTypesEntry variadicEntry
  cases wn <;> cases wt <;> simp [hc]

theorem parseTypesLoop_plain (fp : PackagesPackage) (len : Nat) (v wn wt : Bool)
    (l : List Var) (i : Nat) (acc : List String) (h : v = false ∨ i + l.length < len) :
    parseTypesLoop fp len v wn wt i l acc = acc ++ l.map (plainEntry fp wn wt) := by
  induction l generalizing i acc with
  | nil => simp [parseTypesLoop]
  | cons p rest ih =>
    have h1 : v = false ∨ i + 1 ≠ len := by
      rcases h with h | h
      · exact Or.inl h
      · right; simp at h; omega
    have h2 : v = false ∨ (i + 1) + rest.length < len := by
      rcases h with h | h
      · exact Or.inl h
      · right; simp at h; omega
    simp [parseTypesLoop, ih (i + 1) _ h2, parseTypesEntry_plain fp len v wn wt i p h1]

theorem parseTypesLoop_append (fp : PackagesPackage) (len : Nat) (v wn wt : Bool)
    (l1 l2 : List Var) (i : Nat) (acc : List String) :
    parseTypesLoop fp len v wn wt i (l1 ++ l2) acc =
      parseTypesLoop fp len v wn wt (i + l1.length) l2
        (parseTypesLoop fp len v wn wt i l1 acc) := by
  induction l1 generalizing i acc with
  | nil => simp [parseTypesLoop]
  | cons p rest ih =>
    have e : i + 1 + rest.length = i + (rest.length + 1) := by omega
    show parseTypesLoop fp len v wn wt (i + 1) (rest ++ l2) _ = _
    rw [ih, e]
    rfl

/-- On a generator holding a package, `parseTypes` without the variadic flag renders
every entry plainly. -/
theorem parseTypes_nonvariadic (g : WrapperGenerator) (fp : PackagesPackage)
    (hg : g.foundPackage = some fp) (tuple : List Var) (wn wt : Bool) :
    parseTypes g tuple false wn wt = .ok (tuple.map (plainEntry fp wn wt)) := by
  simp [parseTypes, hg, parseTypesLoop_plain fp tuple.length false wn wt tuple 0 [] (Or.inl rfl)]

/-- On a generator holding a package, `parseTypes` with the variadic flag renders
the last entry of a non-empty tuple as the variadic one and the others plainly. -/
theorem parseTypes_variadic (g : WrapperGenerator) (fp : PackagesPackage)
    (hg : g.foundPackage = some fp) (init : List Var) (last : Var) (wn wt : Bool) :
    parseTypes g (init ++ [last]) true wn wt =
      .ok (init.map (plainEntry fp wn wt) ++ [variadicEntry fp wn wt last]) := by
  have h1 : (0 : Nat) + init.length < (init ++ [last]).length := by simp
  have h2 := parseTypesLoop_plain fp (init ++ [last]).length true wn wt init 0 [] (Or.inr h1)
  have h3 := parseTypesEntry_variadic fp (init ++ [last]).length wn wt init.length last
    (by simp)
  simp only [parseTypes, hg, parseTypesLoop_append, h2, parseTypesLoop, Nat.zero_add, h3,
    List.nil_append]

/-! ## Parameters, arguments and results of a method -/

/-- C1: for a non-variadic signature, on a generator holding its package,
`parseMethodParams` returns as Params the entries `name type`, with the type as
`types.TypeString` renders it under the generator's qualifier, joined with `", "` in
the original order, and as Args the names joined with `", "` in the original order. -/
theorem parseMethodParams_nonvariadic (g : WrapperGenerator) (fp : PackagesPackage)
    (hg : g.foundPackage = some fp) (name : String) (params results : List Var) :
    parseMethodParams g ⟨name, .Signature ⟨params, results, false⟩⟩ =
      .ok (stringsJoin
            (params.map (fun p => p.name ++ " " ++ TypeString p.typ (qualifier fp))) ", ",
           stringsJoin (params.map (fun p => p.name)) ", ") := by
  have e1 : plainEntry fp true true =
      fun p => p.name ++ " " ++ TypeString p.typ (qualifier fp) := by
    funext p
    simp [plainEntry, String.append_assoc]
  have e2 : plainEntry fp true false = fun p => p.name := by
    funext p
    simp [plainEntry]
  simp only [parseMethodParams, parseTypes_nonvariadic g fp hg, e1, e2]
  rfl

/-- C1 at `M(a T1, b T2)`: Params is `"a T1, b T2"` and Args is `"a, b"`. -/
theorem parseMethodParams_nonvariadic_witness :
    exampleGenerator.foundPackage = some examplePackage ∧
    parseMethodParams exampleGenerator
        ⟨"M", .Signature ⟨[⟨"a", .Named (some ⟨"example", "example"⟩) "T1"⟩,
                           ⟨"b", .Basic "T2"⟩], [], false⟩⟩ =
      .ok ("a T1, b T2", "a, b") :=
  ⟨rfl, (parseMethodParams_nonvariadic exampleGenerator examplePackage rfl "M"
      [⟨"a", .Named (some ⟨"example", "example"⟩) "T1"⟩, ⟨"b", .Basic "T2"⟩] []).trans
    rfl⟩

/-- On a generator holding a package, `parseReturnType` of a non-variadic signature
joins the entries `" " ++ type`: every result type is preceded by the blank that
separates a name from its type. -/
theorem parseReturnType_nonvariadic (g : WrapperGenerator) (fp : PackagesPackage)
    (hg : g.foundPackage = some fp) (name : String) (params results : List Var) :
    parseReturnType g ⟨name, .Signature ⟨params, results, false⟩⟩ =
      .ok (stringsJoin (results.map (fun r => " " ++ TypeString r.typ (qualifier fp))) ", ") := by
  have e1 : plainEntry fp false true = fun r => " " ++ TypeString r.typ (qualifier fp) := by
    funext r
    simp [plainEntry]
  simp only [parseReturnType, parseTypes_nonvariadic g fp hg, e1]
  rfl

/-- C2: for the variadic method `M(rest ...[]int)`, whose last parameter `rest` has
the slice type `[][]int`, the claim asks for the last Params entry `"rest ...[]int"`;
the code replaces every `"[]"` of the rendered type and returns `"rest ......int"`. -/
theorem parseMethodParams_variadic_slice_of_slices :
    parseMethodParams exampleGenerator
        ⟨"M", .Signature ⟨[⟨"rest", .Slice (.Slice (.Basic "int"))⟩], [], true⟩⟩ =
      .ok ("rest ......int", "rest...") ∧
    "rest ..." ++ TypeString (.Slice (.Basic "int")) (qualifier examplePackage) =
      "rest ...[]int" ∧
    "rest ......int" ≠ "rest ...[]int" :=
  ⟨rfl, rfl, by decide⟩

/-- C3: for the non-variadic methods `M() error` and `M() (R1, R2)` the claim asks
for the Return strings `"error"` and `"R1, R2"`; the code puts a blank before every
result type and returns `" error"` and `" R1,  R2"`. -/
theorem parseReturnType_leading_blank :
    parseReturnType exampleGenerator
        ⟨"M", .Signature ⟨[], [⟨"", .Named none "error"⟩], false⟩⟩ = .ok " error" ∧
    parseReturnType exampleGenerator
        ⟨"M", .Signature ⟨[], [⟨"", .Basic "R1"⟩, ⟨"", .Basic "R2"⟩], false⟩⟩ =
      .ok " R1,  R2" ∧
    stringsJoin [TypeString (.Basic "R1") (qualifier examplePackage),
      TypeString (.Basic "R2") (qualifier examplePackage)] ", " = "R1, R2" ∧
    " R1,  R2" ≠ "R1, R2" ∧ " error" ≠ "error" :=
  ⟨rfl, rfl, rfl, by decide, by decide⟩

/-- C4: for the result tuple `([]string)` the Return string of the variadic method
`M(xs ...int) []string` is `" ...string"` while that of the non-variadic method
`M(xs []int) []string` is `" []string"`: the variadic flag of the parameters changes
how the last result is rendered. -/
theorem parseReturnType_depends_on_variadic :
    parseReturnType exampleGenerator
        ⟨"M", .Signature ⟨[⟨"xs", .Slice (.Basic "int")⟩],
                           [⟨"", .Slice (.Basic "string")⟩], true⟩⟩ = .ok " ...string" ∧
    parseReturnType exampleGenerator
        ⟨"M", .Signature ⟨[⟨"xs", .Slice (.Basic "int")⟩],
                           [⟨"", .Slice (.Basic "string")⟩], false⟩⟩ = .ok " []string" ∧
    " ...string" ≠ " []string" :=
  ⟨rfl, rfl, by decide⟩

/-- A text in which `old` does not occur is left as it is by the replacement scan. -/
theorem replaceScan_of_not_infix (old new : List Char) (s : List Char)
    (h : ¬ old <:+: s) : replaceScan old new 0 s = s := by
  induction s with
  | nil => rfl
  | cons c cs ih =>
    have hp : old.isPrefixOf (c :: cs) = false := by
      cases hb : old.isPrefixOf (c :: cs) with
      | false => rfl
      | true => exact absurd (List.isPrefixOf_iff_prefix.mp hb).isInfix h
    have ht : ¬ old <:+: cs := fun hi => h (hi.trans (List.suffix_cons c cs).isInfix)
    simp only [replaceScan, hp, ih ht]
    rfl

/-- Go `strings.ReplaceAll(s, "[]", new)` returns `s` when `"[]"` does not occur in it. -/
theorem stringsReplaceAll_of_not_infix (s new : String) (h : ¬ "[]".data <:+: s.data) :
    stringsReplaceAll s "[]" new = s := by
  have hne : ¬ ("[]".data = []) := by decide
  simp only [stringsReplaceAll, hne, if_false, replaceScan_of_not_infix _ _ _ h]

/-- C5: for a variadic signature with parameters `init ++ [last]`, none of whose
names contains `"[]"`, Args is the names of `init` followed by the name of `last`
with `"..."` appended, joined with `", "` in order. -/
theorem parseMethodParams_variadic_args (g : WrapperGenerator) (fp : PackagesPackage)
    (hg : g.foundPackage = some fp) (name : String) (init : List Var) (last : Var)
    (results : List Var) (h : ∀ p ∈ init ++ [last], ¬ "[]".data <:+: p.name.data) :
    (parseMethodParams g ⟨name, .Signature ⟨init ++ [last], results, true⟩⟩).map Prod.snd =
      .ok (stringsJoin (init.map (fun p => p.name) ++ [last.name ++ "..."]) ", ") := by
  have e2 : plainEntry fp true false = fun p => p.name := by
    funext p
    simp [plainEntry]
  have e3 : variadicEntry fp true false last = last.name ++ "..." := by
    simp [variadicEntry, stringsReplaceAll_of_not_infix last.name "" (h last (by simp))]
  simp only [parseMethodParams, parseTypes_variadic g fp hg, e2, e3]
  rfl

/-- C5 at `M(a T1, rest ...T2)`: Args is `"a, rest..."`. -/
theorem parseMethodParams_variadic_args_witness :
    exampleGenerator.foundPackage = some examplePackage ∧
    (∀ p ∈ [(⟨"a", .Basic "T1"⟩ : Var)] ++ [⟨"rest", .Slice (.Basic "T2")⟩],
      ¬ "[]".data <:+: p.name.data) ∧
    (parseMethodParams exampleGenerator
        ⟨"M", .Signature ⟨[⟨"a", .Basic "T1"⟩] ++ [⟨"rest", .Slice (.Basic "T2")⟩],
                           [⟨"", .Named none "error"⟩], true⟩⟩).map Prod.snd =
      .ok "a, rest..." :=
  ⟨rfl, by decide,
    (parseMethodParams_variadic_args exampleGenerator examplePackage rfl "M"
      [⟨"a", .Basic "T1"⟩] ⟨"rest", .Slice (.Basic "T2")⟩ [⟨"", .Named none "error"⟩]
      (by decide)).trans rfl⟩

/-! ## The methods of an interface -/

theorem parseMethodsLoop_cons_ok (g : WrapperGenerator) (m : Func) (rest : List Func)
    (acc : List Method) (params args ret : String)
    (h1 : parseMethodParams g m = .ok (params, args)) (h2 : parseReturnType g m = .ok ret) :
    parseMethodsLoop g (m :: rest) acc =
      parseMethodsLoop g rest
        (acc ++ [{ Name := m.name, Params := params, Args := args, Return := ret }]) := by
  simp only [parseMethodsLoop, h1, h2]
  rfl

theorem parseMethodsLoop_cons_inv (g : WrapperGenerator) (m : Func) (rest : List Func)
    (acc ms : List Method) (h : parseMethodsLoop g (m :: rest) acc = .ok ms) :
    ∃ params args ret, parseMethodParams g m = .ok (params, args) ∧
      parseReturnType g m = .ok ret := by
  cases h1 : parseMethodParams g m with
  | error e =>
    simp only [parseMethodsLoop, h1] at h
    cases h
  | ok pa =>
    cases h2 : parseReturnType g m with
    | error e =>
      simp only [parseMethodsLoop, h1, h2] at h
      cases h
    | ok ret => exact ⟨pa.1, pa.2, ret, rfl, rfl⟩

theorem parseMethodsLoop_append_ok (g : WrapperGenerator) (l1 l2 : List Func)
    (acc ms : List Method) (h : parseMethodsLoop g l1 acc = .ok ms) :
    parseMethodsLoop g (l1 ++ l2) acc = parseMethodsLoop g l2 ms := by
  induction l1 generalizing acc with
  | nil =>
    simp only [parseMethodsLoop, Except.ok.injEq] at h
    simp [h]
  | cons m rest ih =>
    obtain ⟨params, args, ret, h1, h2⟩ := parseMethodsLoop_cons_inv g m rest acc ms h
    rw [parseMethodsLoop_cons_ok g m rest acc params args ret h1 h2] at h
    rw [List.cons_append, parseMethodsLoop_cons_ok g m (rest ++ l2) acc params args ret h1 h2]
    exact ih _ h

theorem parseMethodsLoop_acc (g : WrapperGenerator) (l : List Func)
    (acc acc0 ms : List Method) (h : parseMethodsLoop g l acc0 = .ok ms) :
    parseMethodsLoop g l (acc ++ acc0) = .ok (acc ++ ms) := by
  induction l generalizing acc0 with
  | nil =>
    simp only [parseMethodsLoop, Except.ok.injEq] at h
    simp [parseMethodsLoop, h]
  | cons m rest ih =>
    obtain ⟨params, args, ret, h1, h2⟩ := parseMethodsLoop_cons_inv g m rest acc0 ms h
    rw [parseMethodsLoop_cons_ok g m rest acc0 params args ret h1 h2] at h
    rw [parseMethodsLoop_cons_ok g m rest (acc ++ acc0) params args ret h1 h2,
      List.append_assoc]
    exact ih _ h

/-- C6: on a generator holding a package, a method whose signature has an empty
parameter tuple and an empty result tuple gets, whatever its variadic flag, the
Method entry with Params, Args and Return all empty: when `parseMethods` returns
`before` for the methods enumerated before it and `after` for those enumerated
after it, it returns for the whole interface these lists with that entry between. -/
theorem parseMethods_empty_signature (g : WrapperGenerator) (fp : PackagesPackage)
    (hg : g.foundPackage = some fp) (iface : Interface) (name : String) (variadic : Bool)
    (before after : List Func) (msB msA : List Method)
    (hB : parseMethods g { iface with typeInterface := ⟨before⟩ } = .ok msB)
    (hA : parseMethods g { iface with typeInterface := ⟨after⟩ } = .ok msA) :
    parseMethods g
        { iface with
          typeInterface := ⟨before ++ [⟨name, .Signature ⟨[], [], variadic⟩⟩] ++ after⟩ } =
      .ok (msB ++ [{ Name := name, Params := "", Args := "", Return := "" }] ++ msA) := by
  have h1 : parseMethodParams g ⟨name, .Signature ⟨[], [], variadic⟩⟩ = .ok ("", "") := by
    simp only [parseMethodParams, parseTypes, hg, parseTypesLoop]
    rfl
  have h2 : parseReturnType g ⟨name, .Signature ⟨[], [], variadic⟩⟩ = .ok "" := by
    simp only [parseReturnType, parseTypes, hg, parseTypesLoop]
    rfl
  simp only [parseMethods] at hB hA ⊢
  rw [List.append_assoc, parseMethodsLoop_append_ok g before _ [] msB hB, List.singleton_append,
    parseMethodsLoop_cons_ok g _ after msB "" "" "" h1 h2]
  have h3 := parseMethodsLoop_acc g after
    (msB ++ [{ Name := name, Params := "", Args := "", Return := "" }]) [] msA hA
  simpa using h3

/-- C6 at the interface `{ A(x int); M(); Z() error }`. -/
theorem parseMethods_empty_signature_witness :
    exampleGenerator.foundPackage = some examplePackage ∧
    parseMethods exampleGenerator
        { exampleInterface with
          typeInterface := ⟨[⟨"A", .Signature ⟨[⟨"x", .Basic "int"⟩], [], false⟩⟩] ++
            [⟨"M", .Signature ⟨[], [], false⟩⟩] ++
            [⟨"Z", .Signature ⟨[], [⟨"", .Named none "error"⟩], false⟩⟩]⟩ } =
      .ok ([{ Name := "A", Params := "x int", Args := "x", Return := "" }] ++
        [{ Name := "M", Params := "", Args := "", Return := "" }] ++
        [{ Name := "Z", Params := "", Args := "", Return := " error" }]) :=
  ⟨rfl, parseMethods_empty_signature exampleGenerator examplePackage rfl exampleInterface "M"
    false [⟨"A", .Signature ⟨[⟨"x", .Basic "int"⟩], [], false⟩⟩]
    [⟨"Z", .Signature ⟨[], [⟨"", .Named none "error"⟩], false⟩⟩] _ _ rfl rfl⟩

/-! ## Qualification of type names -/

/-- C7: for a named type whose package has the short name of the analysed module the
qualifier returns the empty string, the type is rendered as its bare name, and as a
parameter it is rendered `name Type` with no package prefix. -/
theorem qualifier_same_module (g : WrapperGenerator) (fp : PackagesPackage)
    (hg : g.foundPackage = some fp) (p : Package) (h : p.name = fp.Name)
    (paramName typeName : String) :
    qualifier fp p = "" ∧
    TypeString (.Named (some p) typeName) (qualifier fp) = typeName ∧
    parseTypes g [⟨paramName, .Named (some p) typeName⟩] false true true =
      .ok [paramName ++ " " ++ typeName] := by
  have hq : qualifier fp p = "" := by simp [qualifier, h]
  have ht : TypeString (.Named (some p) typeName) (qualifier fp) = typeName := by
    simp [TypeString, packagePrefix, hq]
  refine ⟨hq, ht, ?_⟩
  rw [parseTypes_nonvariadic g fp hg]
  simp [plainEntry, ht, String.append_assoc]

/-- C7 at the parameter `ctx Context` of the module owning `Context`. -/
theorem qualifier_same_module_witness :
    exampleGenerator.foundPackage = some examplePackage ∧
    (⟨"github.com/lovung/example", "example"⟩ : Package).name = examplePackage.Name ∧
    parseTypes exampleGenerator
        [⟨"ctx", .Named (some ⟨"github.com/lovung/example", "example"⟩) "Context"⟩]
        false true true = .ok ["ctx Context"] :=
  ⟨rfl, rfl,
    (qualifier_same_module exampleGenerator examplePackage rfl
      ⟨"github.com/lovung/example", "example"⟩ rfl "ctx" "Context").2.2⟩

/-- C8 as stated fails: the package with import path `gopkg.in/yaml.v3` declares the
short name `yaml`, and its type `Node` is rendered `yaml.Node`, not with the last
segment of the import path as `yaml.v3.Node`. -/
theorem qualifier_not_last_path_segment :
    ¬ ∀ (fp : PackagesPackage) (p : Package) (typeName : String), p.name ≠ fp.Name →
        TypeString (.Named (some p) typeName) (qualifier fp) =
          afterLastSplash p.path ++ "." ++ typeName := by
  intro h
  have h1 := h examplePackage ⟨"gopkg.in/yaml.v3", "yaml"⟩ "Node" (by decide)
  exact absurd h1 (by decide)

/-- C8, amended: for a named type whose package has a short name different from the
analysed module's, the rendered prefix is the text after the last `"/"` of the
package's declared short name (when that text is not empty) followed by `"."`; it is
the last segment of the import path whenever the two segments agree. -/
theorem qualifier_other_package (fp : PackagesPackage) (p : Package) (typeName : String)
    (h : p.name ≠ fp.Name) (hseg : afterLastSplash p.name ≠ "") :
    TypeString (.Named (some p) typeName) (qualifier fp) =
      afterLastSplash p.name ++ "." ++ typeName ∧
    (afterLastSplash p.name = afterLastSplash p.path →
      TypeString (.Named (some p) typeName) (qualifier fp) =
        afterLastSplash p.path ++ "." ++ typeName) := by
  have ht : TypeString (.Named (some p) typeName) (qualifier fp) =
      afterLastSplash p.name ++ "." ++ typeName := by
    simp [TypeString, packagePrefix, qualifier, h, hseg]
  exact ⟨ht, fun e => e ▸ ht⟩

/-- C8, amended, at the type `Context` of the package `a/b/context` named `context`. -/
theorem qualifier_other_package_witness :
    (⟨"a/b/context", "context"⟩ : Package).name ≠ examplePackage.Name ∧
    afterLastSplash (⟨"a/b/context", "context"⟩ : Package).name ≠ "" ∧
    TypeString (.Named (some ⟨"a/b/context", "context"⟩) "Context")
        (qualifier examplePackage) = "context.Context" :=
  ⟨by decide, by decide,
    (qualifier_other_package examplePackage ⟨"a/b/context", "context"⟩ "Context"
      (by decide) (by decide)).1.trans rfl⟩

/-! ## The scan for interface declarations -/

theorem scanSpec_typeSpec (g : WrapperGenerator) (fp : PackagesPackage)
    (acc : List Interface) (typeSpec : TypeSpec) :
    scanSpec g fp acc (.TypeSpec typeSpec) = acc ++ (selectSpec g fp typeSpec).toList := by
  unfold scanSpec selectSpec resolvedInterface
  cases hd : fp.Defs typeSpec.Name with
  | none => simp [hd]
  | some obj =>
    cases hu : obj.underlying with
    | Other t => simp [hd, hu]
    | Interface iface =>
      cases hx : g.excludeInterfaces.index typeSpec.Name.Name <;> simp [hd, hu, hx]

theorem foldl_scanSpec (g : WrapperGenerator) (fp : PackagesPackage) (specs : List Spec)
    (acc : List Interface) :
    specs.foldl (scanSpec g fp) acc =
      acc ++ (declTypeSpecs (.GenDecl specs)).filterMap (selectSpec g fp) := by
  induction specs generalizing acc with
  | nil => simp [declTypeSpecs]
  | cons spec rest ih =>
    rw [List.foldl_cons, ih]
    cases spec with
    | ImportSpec path => simp [scanSpec, declTypeSpecs]
    | ValueSpec names => simp [scanSpec, declTypeSpecs]
    | TypeSpec typeSpec =>
      rw [scanSpec_typeSpec]
      cases hs : selectSpec g fp typeSpec <;> simp [declTypeSpecs, hs]

theorem scanDecl_eq (g : WrapperGenerator) (fp : PackagesPackage) (acc : List Interface)
    (decl : Decl) :
    scanDecl g fp acc decl = acc ++ (declTypeSpecs decl).filterMap (selectSpec g fp) := by
  cases decl with
  | BadDecl => simp [scanDecl, declTypeSpecs]
  | FuncDecl name => simp [scanDecl, declTypeSpecs]
  | GenDecl specs => simp only [scanDecl, foldl_scanSpec]

theorem foldl_scanDecl (g : WrapperGenerator) (fp : PackagesPackage) (decls : List Decl)
    (acc : List Interface) :
    decls.foldl (scanDecl g fp) acc =
      acc ++ (decls.flatMap declTypeSpecs).filterMap (selectSpec g fp) := by
  induction decls generalizing acc with
  | nil => simp
  | cons decl rest ih =>
    rw [List.foldl_cons, ih, scanDecl_eq]
    simp [List.append_assoc]

theorem expectedInterface_eq (g : WrapperGenerator) (fp : PackagesPackage) (file : File)
    (typeSpec : TypeSpec) :
    expectedInterface g fp file typeSpec =
      if g.excludeFiles.index (fileBaseName fp file) then none
      else selectSpec g fp typeSpec := by
  unfold expectedInterface selectSpec
  cases resolvedInterface fp typeSpec with
  | none => simp
  | some iface =>
    cases hf : g.excludeFiles.index (fileBaseName fp file) <;>
      cases hx : g.excludeInterfaces.index typeSpec.Name.Name <;> simp

theorem scanFile_eq (g : WrapperGenerator) (fp : PackagesPackage) (acc : List Interface)
    (file : File) :
    scanFile g fp acc file =
      acc ++ (fileTypeSpecs file).filterMap (expectedInterface g fp file) := by
  have hfun : expectedInterface g fp file =
      fun typeSpec => if g.excludeFiles.index (fileBaseName fp file) then none
        else selectSpec g fp typeSpec := funext (expectedInterface_eq g fp file)
  rw [hfun]
  unfold scanFile
  cases hf : g.excludeFiles.index (afterLastSplash (fp.Fset file.Package)) with
  | true => simp [fileBaseName, hf]
  | false => simp [fileBaseName, hf, foldl_scanDecl, fileTypeSpecs]

theorem foldl_scanFile (g : WrapperGenerator) (fp : PackagesPackage) (files : List File)
    (acc : List Interface) :
    files.foldl (scanFile g fp) acc =
      acc ++ files.flatMap
        (fun file => (fileTypeSpecs file).filterMap (expectedInterface g fp file)) := by
  induction files generalizing acc with
  | nil => simp
  | cons file rest ih =>
    rw [List.foldl_cons, ih, scanFile_eq]
    simp [List.append_assoc]

/-- On a generator holding a package, `loadAllInterfaces` returns the expected list. -/
theorem loadAllInterfaces_eq (g : WrapperGenerator) (fp : PackagesPackage)
    (hg : g.foundPackage = some fp) :
    loadAllInterfaces g = .ok (expectedInterfaces g fp) := by
  simp [loadAllInterfaces, hg, foldl_scanFile, expectedInterfaces]

theorem expectedInterface_name (g : WrapperGenerator) (fp : PackagesPackage) (file : File)
    (typeSpec : TypeSpec) (iface : Interface)
    (h : expectedInterface g fp file typeSpec = some iface) :
    iface.Name = typeSpec.Name.Name ∧ iface.astTypeSpec = typeSpec ∧
    g.excludeFiles.index (fileBaseName fp file) = false ∧
    g.excludeInterfaces.index typeSpec.Name.Name = false := by
  unfold expectedInterface at h
  cases hr : resolvedInterface fp typeSpec with
  | none => simp [hr] at h
  | some ti =>
    simp only [hr] at h
    split at h
    · rename_i hc
      simp only [Option.some.injEq] at h
      subst h
      exact ⟨rfl, rfl, hc.1, hc.2⟩
    · cases h

theorem mem_expectedInterfaces (g : WrapperGenerator) (fp : PackagesPackage)
    (iface : Interface) :
    iface ∈ expectedInterfaces g fp ↔
      ∃ file ∈ fp.Syntax, ∃ typeSpec ∈ fileTypeSpecs file,
        expectedInterface g fp file typeSpec = some iface := by
  simp [expectedInterfaces, List.mem_flatMap, List.mem_filterMap]

theorem filterMap_names_sublist (f : TypeSpec → Option Interface)
    (hf : ∀ typeSpec iface, f typeSpec = some iface → iface.Name = typeSpec.Name.Name)
    (l : List TypeSpec) :
    ((l.filterMap f).map (fun i => i.Name)).Sublist (l.map (fun t => t.Name.Name)) := by
  induction l with
  | nil => simp
  | cons t rest ih =>
    cases h : f t with
    | none =>
      rw [List.filterMap_cons_none h]
      exact ih.cons _
    | some i =>
      rw [List.filterMap_cons_some h, List.map_cons, List.map_cons, hf t i h]
      exact ih.cons₂ _

theorem expectedInterfaces_names_sublist (g : WrapperGenerator) (fp : PackagesPackage)
    (files : List File) :
    ((files.flatMap
        (fun file => (fileTypeSpecs file).filterMap (expectedInterface g fp file))).map
          (fun i => i.Name)).Sublist
      ((files.flatMap fileTypeSpecs).map (fun t => t.Name.Name)) := by
  induction files with
  | nil => simp
  | cons file rest ih =>
    simp only [List.flatMap_cons, List.map_append]
    exact (filterMap_names_sublist (expectedInterface g fp file)
      (fun t i h => (expectedInterface_name g fp file t i h).1) _).append ih

/-- C9: for a module whose top-level type declarations have pairwise distinct names,
`loadAllInterfaces` returns the expected list: one handle for each type declaration
that has a resolved type whose underlying type is an interface, sits in a file whose
base name is not in `excludeFiles` and has a name not in `excludeInterfaces`, in
syntax-tree order, then declaration order, and nothing else; the names of the
handles are pairwise distinct, so each such declaration has exactly one handle of
its name. -/
theorem loadAllInterfaces_exact (g : WrapperGenerator) (fp : PackagesPackage)
    (hg : g.foundPackage = some fp)
    (hnames : ((fp.Syntax.flatMap fileTypeSpecs).map (fun t => t.Name.Name)).Nodup) :
    loadAllInterfaces g = .ok (expectedInterfaces g fp) ∧
    (∀ iface, iface ∈ expectedInterfaces g fp ↔
      ∃ file ∈ fp.Syntax, ∃ typeSpec ∈ fileTypeSpecs file,
        expectedInterface g fp file typeSpec = some iface) ∧
    ((expectedInterfaces g fp).map (fun i => i.Name)).Nodup ∧
    (∀ file ∈ fp.Syntax, ∀ typeSpec ∈ fileTypeSpecs file,
      (expectedInterface g fp file typeSpec).isSome →
        ((expectedInterfaces g fp).map (fun i => i.Name)).count typeSpec.Name.Name = 1) := by
  have hnd : ((expectedInterfaces g fp).map (fun i => i.Name)).Nodup :=
    (expectedInterfaces_names_sublist g fp fp.Syntax).nodup hnames
  refine ⟨loadAllInterfaces_eq g fp hg, mem_expectedInterfaces g fp, hnd, ?_⟩
  intro file hfile typeSpec hts hsome
  obtain ⟨iface, hi⟩ := Option.isSome_iff_exists.mp hsome
  have hmem : iface ∈ expectedInterfaces g fp :=
    (mem_expectedInterfaces g fp iface).mpr ⟨file, hfile, typeSpec, hts, hi⟩
  have hname : typeSpec.Name.Name ∈ (expectedInterfaces g fp).map (fun i => i.Name) :=
    List.mem_map.mpr ⟨iface, hmem, (expectedInterface_name g fp file typeSpec iface hi).1⟩
  exact List.count_eq_one_of_mem hnd hname

/-- C9 at `scanPackage`, skipping the file `mock.go` and the interface `Hidden`: the
handles returned are those of `TestInterface` and `Store`, in this order. -/
theorem loadAllInterfaces_exact_witness :
    scanGenerator.foundPackage = some scanPackage ∧
    ((scanPackage.Syntax.flatMap fileTypeSpecs).map (fun t => t.Name.Name)).Nodup ∧
    loadAllInterfaces scanGenerator = .ok (expectedInterfaces scanGenerator scanPackage) ∧
    (expectedInterfaces scanGenerator scanPackage).map (fun i => i.Name) =
      ["TestInterface", "Store"] :=
  ⟨rfl, by decide, (loadAllInterfaces_exact scanGenerator scanPackage rfl (by decide)).1,
    by decide⟩

/-! ## Exclusion -/

theorem stemsFromAdmitted_of_mem (g : WrapperGenerator) (fp : PackagesPackage)
    (iface : Interface) (h : iface ∈ expectedInterfaces g fp) : StemsFromAdmitted g fp iface := by
  obtain ⟨file, hfile, typeSpec, hts, hi⟩ := (mem_expectedInterfaces g fp iface).mp h
  obtain ⟨hn, ha, hf, hx⟩ := expectedInterface_name g fp file typeSpec iface hi
  exact ⟨hn ▸ hx, by rw [hn, ha], file, hfile, hf, ha ▸ hts⟩

theorem expectedInterface_key_withoutExcludedFiles (g : WrapperGenerator)
    (fp : PackagesPackage) (file : File) (typeSpec : TypeSpec) :
    (expectedInterface g (withoutExcludedFiles g fp) file typeSpec).map Interface.key =
      (expectedInterface g fp file typeSpec).map Interface.key := by
  unfold expectedInterface
  have hr : resolvedInterface (withoutExcludedFiles g fp) typeSpec =
      resolvedInterface fp typeSpec := rfl
  have hb : fileBaseName (withoutExcludedFiles g fp) file = fileBaseName fp file := rfl
  rw [hr, hb]
  cases resolvedInterface fp typeSpec with
  | none => rfl
  | some ti =>
    by_cases hc : g.excludeFiles.index (fileBaseName fp file) = false ∧
        g.excludeInterfaces.index typeSpec.Name.Name = false
    · simp [hc, Interface.key]
    · simp [hc]

theorem expectedInterfaces_key_filter (g : WrapperGenerator) (fp : PackagesPackage)
    (files : List File) :
    ((files.filter (fun file => !g.excludeFiles.index (fileBaseName fp file))).flatMap
        (fun file => (fileTypeSpecs file).filterMap
          (expectedInterface g (withoutExcludedFiles g fp) file))).map Interface.key =
      (files.flatMap
        (fun file => (fileTypeSpecs file).filterMap (expectedInterface g fp file))).map
          Interface.key := by
  induction files with
  | nil => rfl
  | cons file rest ih =>
    cases hf : g.excludeFiles.index (fileBaseName fp file) with
    | true =>
      have hnone : (fileTypeSpecs file).filterMap (expectedInterface g fp file) = [] := by
        rw [List.filterMap_eq_nil_iff]
        intro t _
        rw [expectedInterface_eq, hf]
        rfl
      simp only [List.flatMap_cons, hnone, List.nil_append]
      rw [List.filter_cons_of_neg (by simp [hf])]
      exact ih
    | false =>
      rw [List.filter_cons_of_pos (by simp [hf])]
      simp only [List.flatMap_cons, List.map_append, ih, List.map_filterMap]
      congr 2
      funext t
      exact expectedInterface_key_withoutExcludedFiles g fp file t

theorem parseDataLoop_forall₂ (g : WrapperGenerator) (l l' : List Interface)
    (h : parseDataLoop g l = .ok l') :
    List.Forall₂ (fun i i' => parseMethods g i = .ok i'.Methods ∧ i'.Name = i.Name ∧
      i'.typeInterface = i.typeInterface ∧ i'.astTypeSpec = i.astTypeSpec) l l' := by
  induction l generalizing l' with
  | nil =>
    simp only [parseDataLoop, Except.ok.injEq] at h
    subst h
    exact List.Forall₂.nil
  | cons i rest ih =>
    cases hm : parseMethods g i with
    | error e =>
      simp only [parseDataLoop, hm] at h
      cases h
    | ok methods =>
      cases hr : parseDataLoop g rest with
      | error e =>
        simp only [parseDataLoop, hm, hr] at h
        cases h
      | ok rest' =>
        simp only [parseDataLoop, hm, hr] at h
        cases h
        exact List.Forall₂.cons ⟨hm, rfl, rfl, rfl⟩ (ih rest' hr)

theorem ParseData_of_getPackage (load : String → LoadResult) (g0 g : WrapperGenerator)
    (fp : PackagesPackage) (hp : getPackage load g0 = (none, g))
    (hg : g.foundPackage = some fp) :
    (ParseData load g0).1 =
      (parseDataLoop g (expectedInterfaces g fp)).map (fun l => (fp.Name, l)) := by
  unfold ParseData
  simp only [hp, loadAllInterfaces_eq g fp hg]
  cases parseDataLoop g (expectedInterfaces g fp) with
  | error e => rfl
  | ok l => simp only [hg]; rfl

theorem getPackage_frame (load : String → LoadResult) (g0 g : WrapperGenerator)
    (hp : getPackage load g0 = (none, g)) :
    g.excludeFiles = g0.excludeFiles ∧ g.excludeInterfaces = g0.excludeInterfaces ∧
    g.packagePath = g0.packagePath := by
  simp only [getPackage] at hp
  cases he : (load g0.packagePath).err with
  | some err =>
    simp only [he] at hp
    cases hp
  | none =>
    simp only [he] at hp
    split at hp
    · cases hp
    · cases hp
      exact ⟨rfl, rfl, rfl⟩

theorem parseDataLoop_mem (g : WrapperGenerator) (l l' : List Interface)
    (h : parseDataLoop g l = .ok l') (i' : Interface) (hi : i' ∈ l') :
    ∃ i ∈ l, i'.Name = i.Name ∧ i'.astTypeSpec = i.astTypeSpec := by
  have hf := parseDataLoop_forall₂ g l l' h
  clear h
  induction hf with
  | nil => cases hi
  | cons hab _ ih =>
    rcases List.mem_cons.mp hi with rfl | hi
    · exact ⟨_, List.mem_cons_self _ _, hab.2.1, hab.2.2.2⟩
    · obtain ⟨i, him, hn⟩ := ih hi
      exact ⟨i, List.mem_cons_of_mem _ him, hn⟩

/-- C10: on a generator holding a package, every handle `loadAllInterfaces` returns
has a name that is not in `excludeInterfaces` and stems from a type declaration of a
file whose base name is not in `excludeFiles`; the handles are the same when the
files with an excluded base name are taken out of the package; and every handle a
successful `ParseData` returns, the package being the one `getPackage` stored, is
such a handle too. -/
theorem no_excluded_interface (g : WrapperGenerator) (fp : PackagesPackage)
    (hg : g.foundPackage = some fp) :
    (∃ ifaces, loadAllInterfaces g = .ok ifaces ∧
      (∀ i ∈ ifaces, StemsFromAdmitted g fp i) ∧
      ∃ kept,
        loadAllInterfaces { g with foundPackage := some (withoutExcludedFiles g fp) } =
          .ok kept ∧
        kept.map Interface.key = ifaces.map Interface.key) ∧
    (∀ (load : String → LoadResult) (g0 : WrapperGenerator) (name : String)
        (ifaces : List Interface),
      getPackage load g0 = (none, g) → (ParseData load g0).1 = .ok (name, ifaces) →
        g.excludeFiles = g0.excludeFiles ∧ g.excludeInterfaces = g0.excludeInterfaces ∧
        ∀ i ∈ ifaces, StemsFromAdmitted g fp i) := by
  refine ⟨⟨expectedInterfaces g fp, loadAllInterfaces_eq g fp hg,
    fun i hi => stemsFromAdmitted_of_mem g fp i hi, ?_⟩, ?_⟩
  · refine ⟨_, loadAllInterfaces_eq _ (withoutExcludedFiles g fp) rfl, ?_⟩
    exact expectedInterfaces_key_filter g fp fp.Syntax
  · intro load g0 name ifaces hp hd
    rw [ParseData_of_getPackage load g0 g fp hp hg] at hd
    have hfr := getPackage_frame load g0 g hp
    refine ⟨hfr.1, hfr.2.1, ?_⟩
    cases hl : parseDataLoop g (expectedInterfaces g fp) with
    | error e =>
      rw [hl] at hd
      cases hd
    | ok l =>
      rw [hl] at hd
      cases hd
      intro i' hi'
      obtain ⟨i, him, hn, ha⟩ := parseDataLoop_mem g _ _ hl i' hi'
      obtain ⟨h1, h2, h3⟩ := stemsFromAdmitted_of_mem g fp i him
      exact ⟨hn ▸ h1, by rw [hn, ha]; exact h2, by rw [ha]; exact h3⟩

/-- C10 at `scanPackage`: with the file `mock.go` and the interface `Hidden` excluded,
`loadAllInterfaces` and `ParseData` return the handles of `TestInterface` and
`Store`, and neither `MockStore` nor `Hidden`. -/
theorem no_excluded_interface_witness :
    scanGenerator.foundPackage = some scanPackage ∧
    (∃ ifaces, loadAllInterfaces scanGenerator = .ok ifaces ∧
      ifaces.map (fun i => i.Name) = ["TestInterface", "Store"] ∧
      ∀ i ∈ ifaces, StemsFromAdmitted scanGenerator scanPackage i) ∧
    (∃ ifaces,
      (ParseData scanLoad (NewWrapperGenerator "./example"
        [WithIgnoreFileNames ["mock.go"], WithIgnoreInterfaceNames ["Hidden"]])).1 =
          .ok ("example", ifaces) ∧
      ifaces.map (fun i => i.Name) = ["TestInterface", "Store"] ∧
      ∀ i ∈ ifaces, StemsFromAdmitted scanGenerator scanPackage i) :=
  by
  have h := no_excluded_interface scanGenerator scanPackage rfl
  refine ⟨rfl, ?_, ?_⟩
  · obtain ⟨ifaces, hl, hs, _⟩ := h.1
    refine ⟨ifaces, hl, ?_, hs⟩
    have he := (loadAllInterfaces_eq scanGenerator scanPackage rfl).symm.trans hl
    cases he
    decide
  · have hp := h.2 scanLoad (NewWrapperGenerator "./example"
      [WithIgnoreFileNames ["mock.go"], WithIgnoreInterfaceNames ["Hidden"]]) "example" _
      rfl rfl
    exact ⟨_, rfl, rfl, hp.2.2⟩

/-! ## All or nothing -/

theorem getPackage_ok_inv (load : String → LoadResult) (g0 g : WrapperGenerator)
    (hp : getPackage load g0 = (none, g)) :
    (load g0.packagePath).err = none ∧ (load g0.packagePath).printErrors = 0 ∧
    ∃ p rest, (load g0.packagePath).pkgs = p :: rest ∧
      g = { g0 with foundPackage := some p } := by
  simp only [getPackage] at hp
  cases he : (load g0.packagePath).err with
  | some err =>
    simp only [he] at hp
    cases hp
  | none =>
    simp only [he] at hp
    split at hp
    · cases hp
    · rename_i hc
      cases hl : (load g0.packagePath).pkgs with
      | nil => exact absurd (Or.inr (by simp [hl])) hc
      | cons p rest =>
        refine ⟨rfl, by omega, p, rest, rfl, ?_⟩
        rw [hl] at hp
        cases hp
        rfl

theorem getPackage_error_inv (load : String → LoadResult) (g0 : WrapperGenerator)
    (e : GoError) (hp : (getPackage load g0).1 = some e) :
    getPackage load g0 = (some e, g0) := by
  simp only [getPackage] at hp ⊢
  cases he : (load g0.packagePath).err with
  | some err =>
    simp only [he] at hp ⊢
    cases hp
    rfl
  | none =>
    simp only [he] at hp ⊢
    split
    · rename_i hc
      rw [if_pos hc] at hp
      cases hp
      rfl
    · rename_i hc
      rw [if_neg hc] at hp
      cases hp

theorem ParseData_eq (load : String → LoadResult) (g0 g : WrapperGenerator)
    (fp : PackagesPackage) (hp : getPackage load g0 = (none, g))
    (hg : g.foundPackage = some fp) :
    ParseData load g0 =
      match parseDataLoop g (expectedInterfaces g fp) with
      | .error e => (.error e, g)
      | .ok l => (.ok (fp.Name, l), { g with foundInterface := l }) := by
  unfold ParseData
  simp only [hp, loadAllInterfaces_eq g fp hg]
  cases parseDataLoop g (expectedInterfaces g fp) with
  | error e => rfl
  | ok l => simp only [hg]

theorem parseMethodParams_error_inv (g : WrapperGenerator) (fp : PackagesPackage)
    (hg : g.foundPackage = some fp) (m : Func) (e : GoError)
    (h : parseMethodParams g m = .error e) :
    e = .Errorf "invalid method type" ∧ ∃ t, m.typ = .Other t := by
  unfold parseMethodParams at h
  cases ht : m.typ with
  | Other t =>
    simp only [ht] at h
    cases h
    exact ⟨rfl, t, rfl⟩
  | Signature sig =>
    simp only [ht, parseTypes, hg] at h
    cases h

theorem parseReturnType_error_inv (g : WrapperGenerator) (fp : PackagesPackage)
    (hg : g.foundPackage = some fp) (m : Func) (e : GoError)
    (h : parseReturnType g m = .error e) :
    e = .Errorf "invalid method type" ∧ ∃ t, m.typ = .Other t := by
  unfold parseReturnType at h
  cases ht : m.typ with
  | Other t =>
    simp only [ht] at h
    cases h
    exact ⟨rfl, t, rfl⟩
  | Signature sig =>
    simp only [ht, parseTypes, hg] at h
    cases h

theorem parseMethodParams_other (g : WrapperGenerator) (m : Func) (t : GoType)
    (ht : m.typ = .Other t) :
    parseMethodParams g m = .error (.Errorf "invalid method type") := by
  simp only [parseMethodParams, ht]

theorem parseMethodParams_signature_ok (g : WrapperGenerator) (fp : PackagesPackage)
    (hg : g.foundPackage = some fp) (m : Func) (sig : Signature)
    (ht : m.typ = .Signature sig) :
    (∃ pa, parseMethodParams g m = .ok pa) ∧ ∃ r, parseReturnType g m = .ok r := by
  simp only [parseMethodParams, parseReturnType, ht, parseTypes, hg]
  exact ⟨⟨_, rfl⟩, ⟨_, rfl⟩⟩

theorem parseMethodsLoop_error_of_other (g : WrapperGenerator) (fp : PackagesPackage)
    (hg : g.foundPackage = some fp) (l : List Func) (acc : List Method) (m : Func)
    (t : GoType) (hm : m ∈ l) (ht : m.typ = .Other t) :
    parseMethodsLoop g l acc = .error (.Errorf "invalid method type") := by
  induction l generalizing acc with
  | nil => cases hm
  | cons m0 rest ih =>
    cases h0 : m0.typ with
    | Other t0 =>
      simp only [parseMethodsLoop, parseMethodParams_other g m0 t0 h0]
      rfl
    | Signature sig =>
      obtain ⟨⟨pa, h1⟩, ⟨r, h2⟩⟩ := parseMethodParams_signature_ok g fp hg m0 sig h0
      rw [parseMethodsLoop_cons_ok g m0 rest acc pa.1 pa.2 r h1 h2]
      rcases List.mem_cons.mp hm with rfl | hm
      · rw [h0] at ht
        cases ht
      · exact ih _ hm

theorem parseMethodsLoop_error_inv (g : WrapperGenerator) (fp : PackagesPackage)
    (hg : g.foundPackage = some fp) (l : List Func) (acc : List Method) (e : GoError)
    (h : parseMethodsLoop g l acc = .error e) :
    e = .Errorf "invalid method type" ∧ ∃ m ∈ l, ∃ t, m.typ = .Other t := by
  induction l generalizing acc with
  | nil => cases h
  | cons m0 rest ih =>
    cases h0 : m0.typ with
    | Other t0 =>
      simp only [parseMethodsLoop, parseMethodParams_other g m0 t0 h0] at h
      cases h
      exact ⟨rfl, m0, List.mem_cons_self _ _, t0, h0⟩
    | Signature sig =>
      obtain ⟨⟨pa, h1⟩, ⟨r, h2⟩⟩ := parseMethodParams_signature_ok g fp hg m0 sig h0
      rw [parseMethodsLoop_cons_ok g m0 rest acc pa.1 pa.2 r h1 h2] at h
      obtain ⟨he, m, hm, ht⟩ := ih _ h
      exact ⟨he, m, List.mem_cons_of_mem _ hm, ht⟩

theorem parseMethodsLoop_ok_of_signatures (g : WrapperGenerator) (fp : PackagesPackage)
    (hg : g.foundPackage = some fp) (l : List Func) (acc : List Method)
    (h : ∀ m ∈ l, ∃ sig, m.typ = .Signature sig) :
    ∃ ms, parseMethodsLoop g l acc = .ok ms := by
  cases hr : parseMethodsLoop g l acc with
  | ok ms => exact ⟨ms, rfl⟩
  | error e =>
    obtain ⟨_, m, hm, t, ht⟩ := parseMethodsLoop_error_inv g fp hg l acc e hr
    obtain ⟨sig, hs⟩ := h m hm
    rw [hs] at ht
    cases ht

theorem parseMethodsLoop_ok_inv (g : WrapperGenerator) (l : List Func)
    (acc ms : List Method) (h : parseMethodsLoop g l acc = .ok ms) :
    ms.map (fun m => m.Name) = acc.map (fun m => m.Name) ++ l.map (fun m => m.name) ∧
    ∀ m ∈ l, (∃ pa, parseMethodParams g m = .ok pa) ∧ ∃ r, parseReturnType g m = .ok r := by
  induction l generalizing acc with
  | nil =>
    simp only [parseMethodsLoop, Except.ok.injEq] at h
    subst h
    simp
  | cons m0 rest ih =>
    obtain ⟨params, args, ret, h1, h2⟩ := parseMethodsLoop_cons_inv g m0 rest acc ms h
    rw [parseMethodsLoop_cons_ok g m0 rest acc params args ret h1 h2] at h
    obtain ⟨hn, hall⟩ := ih _ h
    refine ⟨by simp [hn], ?_⟩
    intro m hm
    rcases List.mem_cons.mp hm with rfl | hm
    · exact ⟨⟨_, h1⟩, ⟨_, h2⟩⟩
    · exact hall m hm

theorem parseDataLoop_error_of_mem (g : WrapperGenerator) (fp : PackagesPackage)
    (hg : g.foundPackage = some fp) (l : List Interface) (i : Interface) (e : GoError)
    (hi : i ∈ l) (h : parseMethods g i = .error e) : parseDataLoop g l = .error e := by
  have he : e = .Errorf "invalid method type" :=
    (parseMethodsLoop_error_inv g fp hg _ _ e h).1
  subst he
  induction l with
  | nil => cases hi
  | cons i0 rest ih =>
    cases h0 : parseMethods g i0 with
    | error e0 =>
      have he0 : e0 = .Errorf "invalid method type" :=
        (parseMethodsLoop_error_inv g fp hg _ _ e0 h0).1
      simp only [parseDataLoop, h0, he0]
      rfl
    | ok ms =>
      rcases List.mem_cons.mp hi with rfl | hi
      · rw [h] at h0
        cases h0
      · simp only [parseDataLoop, h0, ih hi]
        rfl

/-- C11: `ParseData` is all or nothing.  An error of `getPackage`, an error of
`loadAllInterfaces`, or an error of `parseMethodParams` or `parseReturnType` on any
method of any interface found is returned unchanged, in place of a name and a list,
and the generator then keeps the interface list it had; a name and a list are
returned only when the package was loaded, the scan succeeded and every method of
every interface found was rendered, the name being the short name of the package and
the list the one stored in the generator. -/
theorem ParseData_all_or_nothing (load : String → LoadResult) (g0 : WrapperGenerator) :
    (∀ e, (getPackage load g0).1 = some e → (ParseData load g0).1 = .error e) ∧
    (∀ g e, getPackage load g0 = (none, g) → loadAllInterfaces g = .error e →
      (ParseData load g0).1 = .error e) ∧
    (∀ g ifaces i m e, getPackage load g0 = (none, g) → loadAllInterfaces g = .ok ifaces →
      i ∈ ifaces → m ∈ i.typeInterface.methods →
      (parseMethodParams g m = .error e ∨ parseReturnType g m = .error e) →
      (ParseData load g0).1 = .error e) ∧
    (∀ e, (ParseData load g0).1 = .error e →
      (ParseData load g0).2.foundInterface = g0.foundInterface) ∧
    (∀ name list, (ParseData load g0).1 = .ok (name, list) →
      ∃ g fp ifaces, getPackage load g0 = (none, g) ∧ g.foundPackage = some fp ∧
        name = fp.Name ∧ loadAllInterfaces g = .ok ifaces ∧
        List.Forall₂ (fun i i' => parseMethods g i = .ok i'.Methods ∧
          ∀ m ∈ i.typeInterface.methods,
            (∃ pa, parseMethodParams g m = .ok pa) ∧ ∃ r, parseReturnType g m = .ok r)
          ifaces list ∧
        (ParseData load g0).2.foundInterface = list) := by
  rcases hgp : getPackage load g0 with ⟨oe, g⟩
  cases oe with
  | some e0 =>
    have hP : ParseData load g0 = (.error e0, g) := by
      unfold ParseData
      simp only [hgp]
    have hgg : g = g0 := by
      have := getPackage_error_inv load g0 e0 (by rw [hgp])
      rw [hgp] at this
      cases this
      rfl
    refine ⟨?_, ?_, ?_, ?_, ?_⟩
    · intro e he
      cases he
      rw [hP]
    · intro g' e h
      cases h
    · intro g' ifaces i m e h
      cases h
    · intro e _
      rw [hP, hgg]
    · intro name list h
      rw [hP] at h
      cases h
  | none =>
    obtain ⟨_, _, p, rest, _, hgeq⟩ := getPackage_ok_inv load g0 g hgp
    have hg : g.foundPackage = some p := by rw [hgeq]
    have hfi : g.foundInterface = g0.foundInterface := by rw [hgeq]
    have hP := ParseData_eq load g0 g p hgp hg
    have hl := loadAllInterfaces_eq g p hg
    refine ⟨?_, ?_, ?_, ?_, ?_⟩
    · intro e he
      cases he
    · intro g' e h hle
      cases h
      rw [hl] at hle
      cases hle
    · intro g' ifaces i m e h hli hi hm herr
      cases h
      rw [hl] at hli
      cases hli
      have ht : ∃ t, m.typ = .Other t := by
        rcases herr with herr | herr
        · exact (parseMethodParams_error_inv g p hg m e herr).2
        · exact (parseReturnType_error_inv g p hg m e herr).2
      have he : e = .Errorf "invalid method type" := by
        rcases herr with herr | herr
        · exact (parseMethodParams_error_inv g p hg m e herr).1
        · exact (parseReturnType_error_inv g p hg m e herr).1
      obtain ⟨t, ht⟩ := ht
      have hpm : parseMethods g i = .error e := by
        rw [he]
        exact parseMethodsLoop_error_of_other g p hg _ [] m t hm ht
      rw [hP, parseDataLoop_error_of_mem g p hg _ i e hi hpm]
    · intro e he
      rw [hP] at he ⊢
      cases hd : parseDataLoop g (expectedInterfaces g p) with
      | error e' => exact hfi
      | ok l =>
        rw [hd] at he
        cases he
    · intro name list h
      rw [hP] at h ⊢
      cases hd : parseDataLoop g (expectedInterfaces g p) with
      | error e' =>
        rw [hd] at h
        cases h
      | ok l =>
        rw [hd] at h
        cases h
        refine ⟨g, p, _, rfl, hg, rfl, hl, ?_, rfl⟩
        refine (parseDataLoop_forall₂ g _ _ hd).imp ?_
        intro i i' hii
        exact ⟨hii.1, (parseMethodsLoop_ok_inv g _ [] _ hii.1).2⟩

/-- C11 at three runs: a loader error, a diagnostic, and an interface with a method
whose type is not a signature each make `ParseData` return that error alone. -/
theorem ParseData_all_or_nothing_witness :
    (ParseData failingLoad (NewWrapperGenerator "./missing" [])).1 =
      .error (.Loader "no such package") ∧
    (ParseData diagnosticLoad (NewWrapperGenerator "./example" [])).1 =
      .error (.Errorf "failed to load package ./example") ∧
    (ParseData brokenLoad (NewWrapperGenerator "./example" [])).1 =
      .error (.Errorf "invalid method type") ∧
    (ParseData brokenLoad (NewWrapperGenerator "./example" [])).2.foundInterface = [] :=
  ⟨(ParseData_all_or_nothing failingLoad (NewWrapperGenerator "./missing" [])).1 _ rfl,
    (ParseData_all_or_nothing diagnosticLoad (NewWrapperGenerator "./example" [])).1 _ rfl,
    (ParseData_all_or_nothing brokenLoad (NewWrapperGenerator "./example" [])).2.2.1
      { NewWrapperGenerator "./example" [] with foundPackage := some brokenPackage }
      (expectedInterfaces
        { NewWrapperGenerator "./example" [] with foundPackage := some brokenPackage }
        brokenPackage)
      { Name := "Broken", Methods := [], parrentPackage := brokenPackage,
        typeInterface := ⟨[⟨"Bad", .Other (.Basic "int")⟩]⟩, astTypeSpec := ⟨⟨30, "Broken"⟩⟩ }
      ⟨"Bad", .Other (.Basic "int")⟩ _ rfl rfl
      (List.mem_cons_of_mem _ (List.mem_cons_self _ _)) (List.mem_cons_self _ _)
      (Or.inl rfl),
    rfl⟩

/-! ## Empty and non-empty renderings -/

theorem string_ne_empty_of_length (s : String) (h : 0 < s.length) : s ≠ "" := by
  rintro rfl
  simp at h

theorem foldl_join_length (rest : List String) (e : String) :
    e.length + 2 * rest.length ≤ (rest.foldl (fun b s => b ++ ", " ++ s) e).length := by
  induction rest generalizing e with
  | nil => simp
  | cons r rs ih =>
    have h := ih (e ++ ", " ++ r)
    have h2 : (", " : String).length = 2 := rfl
    simp only [String.length_append, h2] at h
    simp only [List.foldl_cons, List.length_cons]
    omega

/-- Joining with `", "` gives the empty string only for no entries or one empty entry. -/
theorem stringsJoin_eq_empty (l : List String) :
    stringsJoin l ", " = "" ↔ l = [] ∨ l = [""] := by
  cases l with
  | nil => simp [stringsJoin]
  | cons e rest =>
    cases rest with
    | nil => simp [stringsJoin]
    | cons r rs =>
      have h := foldl_join_length (r :: rs) e
      simp only [List.length_cons] at h
      have hne : stringsJoin (e :: r :: rs) ", " ≠ "" :=
        string_ne_empty_of_length _ (by simp only [stringsJoin]; omega)
      simp [hne]

theorem plainEntry_withType_ne_empty (fp : PackagesPackage) (wn : Bool) (p : Var) :
    plainEntry fp wn true p ≠ "" := by
  apply string_ne_empty_of_length
  have h2 : (" " : String).length = 1 := rfl
  simp only [plainEntry, if_true, String.length_append, h2]
  omega

theorem variadicEntry_ne_empty (fp : PackagesPackage) (wn wt : Bool) (p : Var)
    (h : wn = true ∨ wt = true) : variadicEntry fp wn wt p ≠ "" := by
  apply string_ne_empty_of_length
  have h1 : (" " : String).length = 1 := rfl
  have h3 : ("..." : String).length = 3 := rfl
  cases wn <;> cases wt <;> simp [variadicEntry, String.length_append, h1, h3] at h ⊢

/-- The entries `parseTypes` returns with the type written are none or all non-empty:
their join is empty exactly for the empty tuple. -/
theorem parseTypes_withType_join (g : WrapperGenerator) (fp : PackagesPackage)
    (hg : g.foundPackage = some fp) (tuple : List Var) (v wn : Bool) :
    ∃ entries, parseTypes g tuple v wn true = .ok entries ∧
      (stringsJoin entries ", " = "" ↔ tuple = []) := by
  cases v with
  | false =>
    refine ⟨_, parseTypes_nonvariadic g fp hg tuple wn true, ?_⟩
    rw [stringsJoin_eq_empty]
    cases tuple with
    | nil => simp
    | cons p rest =>
      cases rest with
      | nil => simp [plainEntry_withType_ne_empty]
      | cons q rest => simp
  | true =>
    rcases List.eq_nil_or_concat tuple with rfl | ⟨init, last, rfl⟩
    · exact ⟨[], by simp [parseTypes, hg, parseTypesLoop], by simp [stringsJoin]⟩
    · rw [List.concat_eq_append]
      refine ⟨_, parseTypes_variadic g fp hg init last wn true, ?_⟩
      rw [stringsJoin_eq_empty]
      cases init with
      | nil => simp [variadicEntry_ne_empty fp wn true last (Or.inr rfl)]
      | cons q rest => simp

/-- The names `parseTypes` returns for the forwarding call join to the empty string
exactly for the empty tuple and for the single unnamed parameter of a non-variadic
signature. -/
theorem parseTypes_names_join (g : WrapperGenerator) (fp : PackagesPackage)
    (hg : g.foundPackage = some fp) (tuple : List Var) (v : Bool) :
    ∃ entries, parseTypes g tuple v true false = .ok entries ∧
      (stringsJoin entries ", " = "" ↔
        tuple = [] ∨ (v = false ∧ ∃ p, tuple = [p] ∧ p.name = "")) := by
  cases v with
  | false =>
    refine ⟨_, parseTypes_nonvariadic g fp hg tuple true false, ?_⟩
    rw [stringsJoin_eq_empty]
    cases tuple with
    | nil => simp
    | cons p rest =>
      cases rest with
      | nil => simp [plainEntry]
      | cons q rest => simp
  | true =>
    rcases List.eq_nil_or_concat tuple with rfl | ⟨init, last, rfl⟩
    · exact ⟨[], by simp [parseTypes, hg, parseTypesLoop], by simp [stringsJoin]⟩
    · rw [List.concat_eq_append]
      refine ⟨_, parseTypes_variadic g fp hg init last true false, ?_⟩
      rw [stringsJoin_eq_empty]
      cases init with
      | nil => simp [variadicEntry_ne_empty fp true false last (Or.inl rfl)]
      | cons q rest => simp

/-- C12 as stated fails: for the method `M(int)`, whose only parameter is unnamed,
the parameter tuple is not empty and Args is the empty string. -/
theorem parseMethodParams_unnamed_parameter :
    parseMethodParams exampleGenerator
        ⟨"M", .Signature ⟨[⟨"", .Basic "int"⟩], [], false⟩⟩ = .ok (" int", "") ∧
    ([⟨"", .Basic "int"⟩] : List Var) ≠ [] :=
  ⟨rfl, by simp⟩

/-- C12, amended: on a generator holding a package every signature is rendered, with
Params empty exactly when the parameter tuple is empty and Return empty exactly when
the result tuple is empty; Args is empty when the parameter tuple is empty, and
non-empty whenever the parameter tuple is non-empty and is not the single unnamed
parameter of a non-variadic signature. -/
theorem rendering_empty_iff (g : WrapperGenerator) (fp : PackagesPackage)
    (hg : g.foundPackage = some fp) (name : String) (sig : Signature) :
    ∃ params args ret,
      parseMethodParams g ⟨name, .Signature sig⟩ = .ok (params, args) ∧
      parseReturnType g ⟨name, .Signature sig⟩ = .ok ret ∧
      (params = "" ↔ sig.params = []) ∧
      (ret = "" ↔ sig.results = []) ∧
      (sig.params = [] → args = "") ∧
      (sig.params ≠ [] → ¬ (sig.variadic = false ∧ ∃ p, sig.params = [p] ∧ p.name = "") →
        args ≠ "") := by
  obtain ⟨ps, hps, hpe⟩ := parseTypes_withType_join g fp hg sig.params sig.variadic true
  obtain ⟨as, has, hae⟩ := parseTypes_names_join g fp hg sig.params sig.variadic
  obtain ⟨rs, hrs, hre⟩ := parseTypes_withType_join g fp hg sig.results sig.variadic false
  refine ⟨stringsJoin ps ", ", stringsJoin as ", ", stringsJoin rs ", ", ?_, ?_, hpe, hre,
    fun h => hae.mpr (Or.inl h), fun h1 h2 h3 => ?_⟩
  · simp only [parseMethodParams, hps, has]
    rfl
  · simp only [parseReturnType, hrs]
    rfl
  · rcases hae.mp h3 with h | h
    · exact h1 h
    · exact h2 h

/-- C12, amended, at `M(a T1, int) error`, whose second parameter is unnamed: Params
is `"a T1,  int"`, Args is `"a, "`, Return is `" error"`, none of them empty. -/
theorem rendering_empty_iff_witness :
    exampleGenerator.foundPackage = some examplePackage ∧
    parseMethodParams exampleGenerator
      ⟨"M", .Signature ⟨[⟨"a", .Basic "T1"⟩, ⟨"", .Basic "int"⟩],
                         [⟨"", .Named none "error"⟩], false⟩⟩ = .ok ("a T1,  int", "a, ") ∧
    parseReturnType exampleGenerator
      ⟨"M", .Signature ⟨[⟨"a", .Basic "T1"⟩, ⟨"", .Basic "int"⟩],
                         [⟨"", .Named none "error"⟩], false⟩⟩ = .ok " error" ∧
    ∃ params args ret,
      parseMethodParams exampleGenerator
        ⟨"M", .Signature ⟨[⟨"a", .Basic "T1"⟩, ⟨"", .Basic "int"⟩],
                           [⟨"", .Named none "error"⟩], false⟩⟩ = .ok (params, args) ∧
      parseReturnType exampleGenerator
        ⟨"M", .Signature ⟨[⟨"a", .Basic "T1"⟩, ⟨"", .Basic "int"⟩],
                           [⟨"", .Named none "error"⟩], false⟩⟩ = .ok ret ∧
      params ≠ "" ∧ ret ≠ "" ∧ args ≠ "" := by
  obtain ⟨params, args, ret, hp, hr, h1, h2, _, h4⟩ :=
    rendering_empty_iff exampleGenerator examplePackage rfl "M"
      ⟨[⟨"a", .Basic "T1"⟩, ⟨"", .Basic "int"⟩], [⟨"", .Named none "error"⟩], false⟩
  refine ⟨rfl, rfl, rfl, params, args, ret, hp, hr, ?_, ?_, ?_⟩
  · exact fun h => absurd (h1.mp h) (by simp)
  · exact fun h => absurd (h2.mp h) (by simp)
  · exact h4 (by simp) (by simp)

/-! ## Loading the package -/

theorem getPackage_fst (load : String → LoadResult) (g : WrapperGenerator) :
    (getPackage load g).1 =
      match (load g.packagePath).err with
      | some err => some err
      | none =>
        if (load g.packagePath).printErrors > 0 ∨ (load g.packagePath).pkgs.length = 0 then
          some (.Errorf ("failed to load package " ++ g.packagePath))
        else none := by
  simp only [getPackage]
  cases (load g.packagePath).err with
  | some err => rfl
  | none =>
    simp only []
    split <;> rfl

theorem ParseData_error_of_getPackage (load : String → LoadResult) (g : WrapperGenerator)
    (e : GoError) (h : (getPackage load g).1 = some e) :
    ParseData load g = (.error e, g) := by
  unfold ParseData
  simp only [getPackage_error_inv load g e h]

/-- C13: `getPackage` fails exactly when the loader returns an error, reports at
least one diagnostic, or returns no package, and it returns a loader error unchanged;
when one diagnostic is reported `ParseData` returns an error in place of a result and
stores nothing; and when `getPackage` succeeds the package it stores is the first
one the loader returned. -/
theorem getPackage_fails_iff (load : String → LoadResult) (g : WrapperGenerator) :
    ((getPackage load g).1 ≠ none ↔
      (load g.packagePath).err ≠ none ∨ 0 < (load g.packagePath).printErrors ∨
        (load g.packagePath).pkgs.length = 0) ∧
    (∀ e, (load g.packagePath).err = some e → (getPackage load g).1 = some e) ∧
    ((load g.packagePath).printErrors = 1 →
      ∃ e, (ParseData load g).1 = .error e ∧ (ParseData load g).2 = g) ∧
    ((getPackage load g).1 = none →
      ∃ p rest, (load g.packagePath).pkgs = p :: rest ∧
        (getPackage load g).2 = { g with foundPackage := some p }) := by
  have hfst := getPackage_fst load g
  refine ⟨?_, ?_, ?_, ?_⟩
  · rw [hfst]
    cases (load g.packagePath).err with
    | some err => simp
    | none =>
      by_cases hc : (load g.packagePath).printErrors > 0 ∨ (load g.packagePath).pkgs.length = 0
      · simp only [if_pos hc]
        exact ⟨fun _ => Or.inr hc, fun _ => by simp⟩
      · simp only [if_neg hc]
        exact ⟨fun h => absurd rfl h, fun h => by
          rcases h with h | h
          · exact absurd rfl h
          · exact absurd h hc⟩
  · intro e he
    rw [hfst, he]
  · intro h1
    have hne : ∃ e, (getPackage load g).1 = some e := by
      rw [hfst]
      cases (load g.packagePath).err with
      | some err => exact ⟨err, rfl⟩
      | none =>
        have hc : (load g.packagePath).printErrors > 0 ∨
            (load g.packagePath).pkgs.length = 0 := Or.inl (by omega)
        exact ⟨_, if_pos hc⟩
    obtain ⟨e, he⟩ := hne
    exact ⟨e, by rw [ParseData_error_of_getPackage load g e he],
      by rw [ParseData_error_of_getPackage load g e he]⟩
  · intro h
    rcases hgp : getPackage load g with ⟨oe, g'⟩
    rw [hgp] at h
    cases h
    obtain ⟨_, _, p, rest, hl, hgeq⟩ := getPackage_ok_inv load g g' hgp
    exact ⟨p, rest, hl, hgeq⟩

/-- C13 at three loaders: one diagnostic makes `ParseData` fail, a loader error is
handed on, and a clean answer stores its first package. -/
theorem getPackage_fails_iff_witness :
    (∃ e, (ParseData diagnosticLoad (NewWrapperGenerator "./example" [])).1 = .error e ∧
      (ParseData diagnosticLoad (NewWrapperGenerator "./example" [])).2 =
        NewWrapperGenerator "./example" []) ∧
    (getPackage failingLoad (NewWrapperGenerator "./missing" [])).1 =
      some (.Loader "no such package") ∧
    (∃ p rest, (scanLoad "./example").pkgs = p :: rest ∧
      (getPackage scanLoad (NewWrapperGenerator "./example" [])).2 =
        { NewWrapperGenerator "./example" [] with foundPackage := some p }) :=
  ⟨(getPackage_fails_iff diagnosticLoad (NewWrapperGenerator "./example" [])).2.2.1 rfl,
    (getPackage_fails_iff failingLoad (NewWrapperGenerator "./missing" [])).2.1 _ rfl,
    (getPackage_fails_iff scanLoad (NewWrapperGenerator "./example" [])).2.2.2 rfl⟩

/-! ## Options -/

theorem BoolMap.index_assign (entries : List (String × Bool)) (name key : String) :
    BoolMap.index (some ((name, true) :: entries)) key = true ↔
      key = name ∨ BoolMap.index (some entries) key = true := by
  by_cases h : key = name
  · subst h
    simp [BoolMap.index, List.lookup]
  · have hb : (key == name) = false := by simpa using h
    simp [BoolMap.index, List.lookup, hb, h]

theorem BoolMap.hasKey_assign (entries : List (String × Bool)) (name key : String) :
    BoolMap.hasKey (some ((name, true) :: entries)) key = true ↔
      key = name ∨ BoolMap.hasKey (some entries) key = true := by
  by_cases h : key = name
  · subst h
    simp [BoolMap.hasKey, List.lookup]
  · have hb : (key == name) = false := by simpa using h
    simp only [BoolMap.hasKey, List.lookup, hb, h, false_or]

/-- Assigning `true` to each name in turn, on a map that has been made. -/
theorem BoolMap.foldl_assign (names : List String) (entries : List (String × Bool)) :
    ∃ entries', names.foldl (fun m name => BoolMap.assign m name true) (some entries) =
        some entries' ∧
      (∀ key, BoolMap.index (some entries') key = true ↔
        key ∈ names ∨ BoolMap.index (some entries) key = true) ∧
      (∀ key, BoolMap.hasKey (some entries') key = true ↔
        key ∈ names ∨ BoolMap.hasKey (some entries) key = true) := by
  induction names generalizing entries with
  | nil => exact ⟨entries, rfl, by simp, by simp⟩
  | cons n ns ih =>
    obtain ⟨es, he, hi, hk⟩ := ih ((n, true) :: entries)
    refine ⟨es, he, ?_, ?_⟩
    · intro key
      rw [hi key, BoolMap.index_assign, List.mem_cons]
      tauto
    · intro key
      rw [hk key, BoolMap.hasKey_assign, List.mem_cons]
      tauto

theorem foldl_excludeFiles (names : List String) (g : WrapperGenerator) :
    names.foldl (fun g name => { g with excludeFiles := g.excludeFiles.assign name true }) g =
      { g with
        excludeFiles := names.foldl (fun m name => BoolMap.assign m name true) g.excludeFiles } := by
  induction names generalizing g with
  | nil => rfl
  | cons n ns ih => simp only [List.foldl_cons, ih]

theorem foldl_excludeInterfaces (names : List String) (g : WrapperGenerator) :
    names.foldl
        (fun g name => { g with excludeInterfaces := g.excludeInterfaces.assign name true }) g =
      { g with
        excludeInterfaces :=
          names.foldl (fun m name => BoolMap.assign m name true) g.excludeInterfaces } := by
  induction names generalizing g with
  | nil => rfl
  | cons n ns ih => simp only [List.foldl_cons, ih]

/-- The map an option leaves behind: the names assigned on the map found, or on a
fresh map when none was made yet. -/
theorem BoolMap.made_foldl_assign (names : List String) (m : BoolMap) :
    ∃ entries',
      names.foldl (fun m name => BoolMap.assign m name true)
        (if m = none then some [] else m) = some entries' ∧
      (∀ key, BoolMap.index (some entries') key = true ↔
        key ∈ names ∨ BoolMap.index m key = true) ∧
      (∀ key, BoolMap.hasKey (some entries') key = true ↔
        key ∈ names ∨ BoolMap.hasKey m key = true) := by
  cases m with
  | none =>
    obtain ⟨es, he, hi, hk⟩ := BoolMap.foldl_assign names []
    exact ⟨es, he, hi, hk⟩
  | some entries =>
    obtain ⟨es, he, hi, hk⟩ := BoolMap.foldl_assign names entries
    exact ⟨es, he, hi, hk⟩

theorem WithIgnoreFileNames_eq (names : List String) (g : WrapperGenerator) :
    WithIgnoreFileNames names g =
      { g with
        excludeFiles := names.foldl (fun m name => BoolMap.assign m name true)
          (if g.excludeFiles = none then some [] else g.excludeFiles) } := by
  unfold WithIgnoreFileNames
  simp only [foldl_excludeFiles]
  cases hm : g.excludeFiles with
  | none => rfl
  | some entries =>
    have hne : ¬ ((some entries : BoolMap) = none) := by simp
    simp only [hne, if_false, hm]

theorem WithIgnoreInterfaceNames_eq (names : List String) (g : WrapperGenerator) :
    WithIgnoreInterfaceNames names g =
      { g with
        excludeInterfaces := names.foldl (fun m name => BoolMap.assign m name true)
          (if g.excludeInterfaces = none then some [] else g.excludeInterfaces) } := by
  unfold WithIgnoreInterfaceNames
  simp only [foldl_excludeInterfaces]
  cases hm : g.excludeInterfaces with
  | none => rfl
  | some entries =>
    have hne : ¬ ((some entries : BoolMap) = none) := by simp
    simp only [hne, if_false, hm]

/-- What `WithIgnoreFileNames` does to a generator. -/
theorem WithIgnoreFileNames_spec (names : List String) (g : WrapperGenerator) :
    (∀ key, (WithIgnoreFileNames names g).excludeFiles.index key = true ↔
      key ∈ names ∨ g.excludeFiles.index key = true) ∧
    (∀ key, (WithIgnoreFileNames names g).excludeFiles.hasKey key = true ↔
      key ∈ names ∨ g.excludeFiles.hasKey key = true) ∧
    (WithIgnoreFileNames names g).excludeInterfaces = g.excludeInterfaces ∧
    (WithIgnoreFileNames names g).packagePath = g.packagePath ∧
    (WithIgnoreFileNames names g).foundPackage = g.foundPackage ∧
    (WithIgnoreFileNames names g).foundInterface = g.foundInterface := by
  rw [WithIgnoreFileNames_eq]
  obtain ⟨es, he, hi, hk⟩ := BoolMap.made_foldl_assign names g.excludeFiles
  refine ⟨?_, ?_, rfl, rfl, rfl, rfl⟩
  · intro key
    show BoolMap.index (names.foldl _ _) key = true ↔ _
    rw [he]
    exact hi key
  · intro key
    show BoolMap.hasKey (names.foldl _ _) key = true ↔ _
    rw [he]
    exact hk key

/-- What `WithIgnoreInterfaceNames` does to a generator. -/
theorem WithIgnoreInterfaceNames_spec (names : List String) (g : WrapperGenerator) :
    (∀ key, (WithIgnoreInterfaceNames names g).excludeInterfaces.index key = true ↔
      key ∈ names ∨ g.excludeInterfaces.index key = true) ∧
    (∀ key, (WithIgnoreInterfaceNames names g).excludeInterfaces.hasKey key = true ↔
      key ∈ names ∨ g.excludeInterfaces.hasKey key = true) ∧
    (WithIgnoreInterfaceNames names g).excludeFiles = g.excludeFiles ∧
    (WithIgnoreInterfaceNames names g).packagePath = g.packagePath ∧
    (WithIgnoreInterfaceNames names g).foundPackage = g.foundPackage ∧
    (WithIgnoreInterfaceNames names g).foundInterface = g.foundInterface := by
  rw [WithIgnoreInterfaceNames_eq]
  obtain ⟨es, he, hi, hk⟩ := BoolMap.made_foldl_assign names g.excludeInterfaces
  refine ⟨?_, ?_, rfl, rfl, rfl, rfl⟩
  · intro key
    show BoolMap.index (names.foldl _ _) key = true ↔ _
    rw [he]
    exact hi key
  · intro key
    show BoolMap.hasKey (names.foldl _ _) key = true ↔ _
    rw [he]
    exact hk key

/-- The generator after a list of constructor calls has been applied in order. -/
theorem foldl_options_spec (calls : List OptionCall) (g : WrapperGenerator) :
    (∀ key, ((calls.map OptionCall.option).foldl (fun g o => o g) g).excludeFiles.index key = true ↔
      (∃ names, OptionCall.IgnoreFileNames names ∈ calls ∧ key ∈ names) ∨
        g.excludeFiles.index key = true) ∧
    (∀ key, ((calls.map OptionCall.option).foldl (fun g o => o g) g).excludeFiles.hasKey key = true ↔
      (∃ names, OptionCall.IgnoreFileNames names ∈ calls ∧ key ∈ names) ∨
        g.excludeFiles.hasKey key = true) ∧
    (∀ key,
      ((calls.map OptionCall.option).foldl (fun g o => o g) g).excludeInterfaces.index key = true ↔
      (∃ names, OptionCall.IgnoreInterfaceNames names ∈ calls ∧ key ∈ names) ∨
        g.excludeInterfaces.index key = true) ∧
    (∀ key,
      ((calls.map OptionCall.option).foldl (fun g o => o g) g).excludeInterfaces.hasKey key = true ↔
      (∃ names, OptionCall.IgnoreInterfaceNames names ∈ calls ∧ key ∈ names) ∨
        g.excludeInterfaces.hasKey key = true) ∧
    ((calls.map OptionCall.option).foldl (fun g o => o g) g).packagePath = g.packagePath ∧
    ((calls.map OptionCall.option).foldl (fun g o => o g) g).foundPackage = g.foundPackage ∧
    ((calls.map OptionCall.option).foldl (fun g o => o g) g).foundInterface = g.foundInterface := by
  induction calls generalizing g with
  | nil => simp
  | cons c cs ih =>
    obtain ⟨h1, h2, h3, h4, h5, h6, h7⟩ := ih (c.option g)
    simp only [List.map_cons, List.foldl_cons]
    cases c with
    | IgnoreFileNames names =>
      obtain ⟨f1, f2, f3, f4, f5, f6⟩ := WithIgnoreFileNames_spec names g
      simp only [OptionCall.option] at h1 h2 h3 h4 h5 h6 h7 ⊢
      refine ⟨?_, ?_, ?_, ?_, h5.trans f4, h6.trans f5, h7.trans f6⟩
      · intro key
        rw [h1 key, f1 key]
        constructor
        · rintro (⟨n, hn, hk⟩ | hk | hk)
          · exact Or.inl ⟨n, List.mem_cons_of_mem _ hn, hk⟩
          · exact Or.inl ⟨names, List.mem_cons_self _ _, hk⟩
          · exact Or.inr hk
        · rintro (⟨n, hn, hk⟩ | hk)
          · rcases List.mem_cons.mp hn with he | hn
            · cases he
              exact Or.inr (Or.inl hk)
            · exact Or.inl ⟨n, hn, hk⟩
          · exact Or.inr (Or.inr hk)
      · intro key
        rw [h2 key, f2 key]
        constructor
        · rintro (⟨n, hn, hk⟩ | hk | hk)
          · exact Or.inl ⟨n, List.mem_cons_of_mem _ hn, hk⟩
          · exact Or.inl ⟨names, List.mem_cons_self _ _, hk⟩
          · exact Or.inr hk
        · rintro (⟨n, hn, hk⟩ | hk)
          · rcases List.mem_cons.mp hn with he | hn
            · cases he
              exact Or.inr (Or.inl hk)
            · exact Or.inl ⟨n, hn, hk⟩
          · exact Or.inr (Or.inr hk)
      · intro key
        rw [h3 key, f3]
        constructor
        · rintro (⟨n, hn, hk⟩ | hk)
          · exact Or.inl ⟨n, List.mem_cons_of_mem _ hn, hk⟩
          · exact Or.inr hk
        · rintro (⟨n, hn, hk⟩ | hk)
          · rcases List.mem_cons.mp hn with he | hn
            · cases he
            · exact Or.inl ⟨n, hn, hk⟩
          · exact Or.inr hk
      · intro key
        rw [h4 key, f3]
        constructor
        · rintro (⟨n, hn, hk⟩ | hk)
          · exact Or.inl ⟨n, List.mem_cons_of_mem _ hn, hk⟩
          · exact Or.inr hk
        · rintro (⟨n, hn, hk⟩ | hk)
          · rcases List.mem_cons.mp hn with he | hn
            · cases he
            · exact Or.inl ⟨n, hn, hk⟩
          · exact Or.inr hk
    | IgnoreInterfaceNames names =>
      obtain ⟨f1, f2, f3, f4, f5, f6⟩ := WithIgnoreInterfaceNames_spec names g
      simp only [OptionCall.option] at h1 h2 h3 h4 h5 h6 h7 ⊢
      refine ⟨?_, ?_, ?_, ?_, h5.trans f4, h6.trans f5, h7.trans f6⟩
      · intro key
        rw [h1 key, f3]
        constructor
        · rintro (⟨n, hn, hk⟩ | hk)
          · exact Or.inl ⟨n, List.mem_cons_of_mem _ hn, hk⟩
          · exact Or.inr hk
        · rintro (⟨n, hn, hk⟩ | hk)
          · rcases List.mem_cons.mp hn with he | hn
            · cases he
            · exact Or.inl ⟨n, hn, hk⟩
          · exact Or.inr hk
      · intro key
        rw [h2 key, f3]
        constructor
        · rintro (⟨n, hn, hk⟩ | hk)
          · exact Or.inl ⟨n, List.mem_cons_of_mem _ hn, hk⟩
          · exact Or.inr hk
        · rintro (⟨n, hn, hk⟩ | hk)
          · rcases List.mem_cons.mp hn with he | hn
            · cases he
            · exact Or.inl ⟨n, hn, hk⟩
          · exact Or.inr hk
      · intro key
        rw [h3 key, f1 key]
        constructor
        · rintro (⟨n, hn, hk⟩ | hk | hk)
          · exact Or.inl ⟨n, List.mem_cons_of_mem _ hn, hk⟩
          · exact Or.inl ⟨names, List.mem_cons_self _ _, hk⟩
          · exact Or.inr hk
        · rintro (⟨n, hn, hk⟩ | hk)
          · rcases List.mem_cons.mp hn with he | hn
            · cases he
              exact Or.inr (Or.inl hk)
            · exact Or.inl ⟨n, hn, hk⟩
          · exact Or.inr (Or.inr hk)
      · intro key
        rw [h4 key, f2 key]
        constructor
        · rintro (⟨n, hn, hk⟩ | hk | hk)
          · exact Or.inl ⟨n, List.mem_cons_of_mem _ hn, hk⟩
          · exact Or.inl ⟨names, List.mem_cons_self _ _, hk⟩
          · exact Or.inr hk
        · rintro (⟨n, hn, hk⟩ | hk)
          · rcases List.mem_cons.mp hn with he | hn
            · cases he
              exact Or.inr (Or.inl hk)
            · exact Or.inl ⟨n, hn, hk⟩
          · exact Or.inr (Or.inr hk)

/-- A generator made by `NewWrapperGenerator` from constructor calls: what its two
maps report and hold. -/
theorem NewWrapperGenerator_spec (packagePath : String) (calls : List OptionCall) :
    (∀ key,
      (NewWrapperGenerator packagePath (calls.map OptionCall.option)).excludeFiles.index key = true ↔
        ∃ names, OptionCall.IgnoreFileNames names ∈ calls ∧ key ∈ names) ∧
    (∀ key,
      (NewWrapperGenerator packagePath (calls.map OptionCall.option)).excludeFiles.hasKey key = true ↔
        ∃ names, OptionCall.IgnoreFileNames names ∈ calls ∧ key ∈ names) ∧
    (∀ key,
      (NewWrapperGenerator packagePath
        (calls.map OptionCall.option)).excludeInterfaces.index key = true ↔
        ∃ names, OptionCall.IgnoreInterfaceNames names ∈ calls ∧ key ∈ names) ∧
    (∀ key,
      (NewWrapperGenerator packagePath
        (calls.map OptionCall.option)).excludeInterfaces.hasKey key = true ↔
        ∃ names, OptionCall.IgnoreInterfaceNames names ∈ calls ∧ key ∈ names) ∧
    (NewWrapperGenerator packagePath (calls.map OptionCall.option)).packagePath = packagePath ∧
    (NewWrapperGenerator packagePath (calls.map OptionCall.option)).foundPackage = none := by
  obtain ⟨h1, h2, h3, h4, h5, h6, _⟩ := foldl_options_spec calls
    { packagePath := packagePath, excludeFiles := none, excludeInterfaces := none,
      foundPackage := none, foundInterface := [] }
  unfold NewWrapperGenerator
  refine ⟨?_, ?_, ?_, ?_, h5, h6⟩
  · intro key
    rw [h1 key]
    simp [BoolMap.index]
  · intro key
    rw [h2 key]
    simp [BoolMap.hasKey]
  · intro key
    rw [h3 key]
    simp [BoolMap.index]
  · intro key
    rw [h4 key]
    simp [BoolMap.hasKey]

/-- The maps of a generator made from constructor calls hold `true` under every key. -/
theorem NewWrapperGenerator_onlyTrue (packagePath : String) (calls : List OptionCall) :
    (NewWrapperGenerator packagePath (calls.map OptionCall.option)).excludeFiles.OnlyTrue ∧
    (NewWrapperGenerator packagePath (calls.map OptionCall.option)).excludeInterfaces.OnlyTrue := by
  obtain ⟨h1, h2, h3, h4, _, _⟩ := NewWrapperGenerator_spec packagePath calls
  exact ⟨fun key hk => (h1 key).mpr ((h2 key).mp hk), fun key hk => (h3 key).mpr ((h4 key).mp hk)⟩

/-- C16: for every list of calls of the two option constructors, the generator
`NewWrapperGenerator` makes from them excludes exactly the names passed to
`WithIgnoreFileNames` as files and exactly the names passed to
`WithIgnoreInterfaceNames` as interfaces, these being also the keys of its two maps,
and keeps the package path; what it excludes is the same for every order of the
calls; each option leaves the other map and the package path as they were; and with
no option both maps are unset and every lookup reports `false`. -/
theorem NewWrapperGenerator_exclusion_sets (packagePath : String) (calls : List OptionCall) :
    (∀ key,
      (NewWrapperGenerator packagePath (calls.map OptionCall.option)).excludeFiles.index key = true ↔
        ∃ names, OptionCall.IgnoreFileNames names ∈ calls ∧ key ∈ names) ∧
    (∀ key,
      (NewWrapperGenerator packagePath
        (calls.map OptionCall.option)).excludeInterfaces.index key = true ↔
        ∃ names, OptionCall.IgnoreInterfaceNames names ∈ calls ∧ key ∈ names) ∧
    (∀ key,
      (NewWrapperGenerator packagePath (calls.map OptionCall.option)).excludeFiles.hasKey key = true ↔
        ∃ names, OptionCall.IgnoreFileNames names ∈ calls ∧ key ∈ names) ∧
    (∀ key,
      (NewWrapperGenerator packagePath
        (calls.map OptionCall.option)).excludeInterfaces.hasKey key = true ↔
        ∃ names, OptionCall.IgnoreInterfaceNames names ∈ calls ∧ key ∈ names) ∧
    (NewWrapperGenerator packagePath (calls.map OptionCall.option)).packagePath = packagePath ∧
    (∀ calls' : List OptionCall, calls'.Perm calls → ∀ key,
      (NewWrapperGenerator packagePath (calls'.map OptionCall.option)).excludeFiles.index key =
        (NewWrapperGenerator packagePath (calls.map OptionCall.option)).excludeFiles.index key ∧
      (NewWrapperGenerator packagePath (calls'.map OptionCall.option)).excludeInterfaces.index key =
        (NewWrapperGenerator packagePath
          (calls.map OptionCall.option)).excludeInterfaces.index key) ∧
    (∀ (names : List String) (g : WrapperGenerator),
      (WithIgnoreFileNames names g).excludeInterfaces = g.excludeInterfaces ∧
      (WithIgnoreFileNames names g).packagePath = g.packagePath ∧
      (WithIgnoreInterfaceNames names g).excludeFiles = g.excludeFiles ∧
      (WithIgnoreInterfaceNames names g).packagePath = g.packagePath) ∧
    ((NewWrapperGenerator packagePath []).excludeFiles = none ∧
      (NewWrapperGenerator packagePath []).excludeInterfaces = none ∧
      ∀ key, (NewWrapperGenerator packagePath []).excludeFiles.index key = false ∧
        (NewWrapperGenerator packagePath []).excludeInterfaces.index key = false) := by
  obtain ⟨h1, h2, h3, h4, h5, _⟩ := NewWrapperGenerator_spec packagePath calls
  refine ⟨h1, h3, h2, h4, h5, ?_, ?_, ⟨rfl, rfl, fun _ => ⟨rfl, rfl⟩⟩⟩
  · intro calls' hperm key
    obtain ⟨k1, _, k3, _, _, _⟩ := NewWrapperGenerator_spec packagePath calls'
    constructor
    · rw [Bool.eq_iff_iff, k1 key, h1 key]
      exact ⟨fun ⟨n, hn, hk⟩ => ⟨n, hperm.mem_iff.mp hn, hk⟩,
        fun ⟨n, hn, hk⟩ => ⟨n, hperm.mem_iff.mpr hn, hk⟩⟩
    · rw [Bool.eq_iff_iff, k3 key, h3 key]
      exact ⟨fun ⟨n, hn, hk⟩ => ⟨n, hperm.mem_iff.mp hn, hk⟩,
        fun ⟨n, hn, hk⟩ => ⟨n, hperm.mem_iff.mpr hn, hk⟩⟩
  · intro names g
    exact ⟨(WithIgnoreFileNames_spec names g).2.2.1, (WithIgnoreFileNames_spec names g).2.2.2.1,
      (WithIgnoreInterfaceNames_spec names g).2.2.1,
      (WithIgnoreInterfaceNames_spec names g).2.2.2.1⟩

/-- C16 at three calls: `mock.go` and `gen.go` are excluded as files, `Hidden` as an
interface and not as a file, and `example.go` is not excluded. -/
theorem NewWrapperGenerator_exclusion_sets_witness :
    (NewWrapperGenerator "./example"
      [WithIgnoreFileNames ["mock.go"], WithIgnoreInterfaceNames ["Hidden"],
        WithIgnoreFileNames ["gen.go", "mock.go"]]).excludeFiles.index "gen.go" = true ∧
    (NewWrapperGenerator "./example"
      [WithIgnoreFileNames ["mock.go"], WithIgnoreInterfaceNames ["Hidden"],
        WithIgnoreFileNames ["gen.go", "mock.go"]]).excludeFiles.index "Hidden" = false ∧
    (NewWrapperGenerator "./example"
      [WithIgnoreFileNames ["mock.go"], WithIgnoreInterfaceNames ["Hidden"],
        WithIgnoreFileNames ["gen.go", "mock.go"]]).excludeInterfaces.index "Hidden" = true ∧
    (NewWrapperGenerator "./example"
      [WithIgnoreFileNames ["mock.go"], WithIgnoreInterfaceNames ["Hidden"],
        WithIgnoreFileNames ["gen.go", "mock.go"]]).excludeFiles.index "example.go" = false :=
  ⟨((NewWrapperGenerator_exclusion_sets "./example"
      [.IgnoreFileNames ["mock.go"], .IgnoreInterfaceNames ["Hidden"],
        .IgnoreFileNames ["gen.go", "mock.go"]]).1 "gen.go").mpr
      ⟨["gen.go", "mock.go"], by decide, by decide⟩,
    by decide, by decide, by decide⟩

/-! ## Exclusion of files by base name -/

theorem BoolMap.hasKey_of_index (m : BoolMap) (key : String) (h : m.index key = true) :
    m.hasKey key = true := by
  cases m with
  | none => simp [BoolMap.index] at h
  | some entries =>
    simp only [BoolMap.index, BoolMap.hasKey] at h ⊢
    cases hl : List.lookup key entries with
    | none => simp [hl] at h
    | some v => rfl

theorem BoolMap.hasKey_eq_index (m : BoolMap) (hm : m.OnlyTrue) (key : String) :
    m.hasKey key = m.index key := by
  rw [Bool.eq_iff_iff]
  exact ⟨hm key, BoolMap.hasKey_of_index m key⟩

/-- C14: whether `loadAllInterfaces` skips a syntax tree depends only on the text
after the last `"/"` of the path of its file.  For a generator whose `excludeFiles`
holds `true` under every key, as the options make it, two trees whose paths have the
same last segment are both skipped, the segment being a key of `excludeFiles`, or
both scanned, the segment being no key of it. -/
theorem file_exclusion_by_base_name (g : WrapperGenerator) (fp : PackagesPackage)
    (hkeys : g.excludeFiles.OnlyTrue) (file other : File)
    (hsame : afterLastSplash (fp.Fset file.Package) = afterLastSplash (fp.Fset other.Package)) :
    (g.excludeFiles.hasKey (afterLastSplash (fp.Fset file.Package)) = true ∧
      (∀ acc, scanFile g fp acc file = acc) ∧ ∀ acc, scanFile g fp acc other = acc) ∨
    (g.excludeFiles.hasKey (afterLastSplash (fp.Fset file.Package)) = false ∧
      (∀ acc, scanFile g fp acc file = file.Decls.foldl (scanDecl g fp) acc) ∧
      ∀ acc, scanFile g fp acc other = other.Decls.foldl (scanDecl g fp) acc) := by
  rw [BoolMap.hasKey_eq_index _ hkeys]
  cases hx : g.excludeFiles.index (afterLastSplash (fp.Fset file.Package)) with
  | true =>
    refine Or.inl ⟨rfl, fun acc => ?_, fun acc => ?_⟩
    · simp only [scanFile, hx, if_true]
    · simp only [scanFile, ← hsame, hx, if_true]
  | false =>
    refine Or.inr ⟨rfl, fun acc => ?_, fun acc => ?_⟩
    · simp only [scanFile, hx]
      rfl
    · simp only [scanFile, ← hsame, hx]
      rfl

/-- C14 at `twinPackage`: the files `a/mock.go` and `b/mock.go` are both skipped when
`mock.go` is excluded, and no handle is returned. -/
theorem file_exclusion_by_base_name_witness :
    twinGenerator.excludeFiles.OnlyTrue ∧
    afterLastSplash (twinPackage.Fset 1) = afterLastSplash (twinPackage.Fset 101) ∧
    twinGenerator.excludeFiles.hasKey (afterLastSplash (twinPackage.Fset 1)) = true ∧
    (∀ acc,
      scanFile twinGenerator twinPackage acc
        { Package := 1, Decls := [.GenDecl [.TypeSpec ⟨⟨10, "First"⟩⟩]] } = acc) ∧
    (∀ acc,
      scanFile twinGenerator twinPackage acc
        { Package := 101, Decls := [.GenDecl [.TypeSpec ⟨⟨110, "Second"⟩⟩]] } = acc) ∧
    loadAllInterfaces twinGenerator = .ok [] := by
  have hk : twinGenerator.excludeFiles.OnlyTrue :=
    (NewWrapperGenerator_onlyTrue "./example"
      [.IgnoreFileNames ["mock.go"], .IgnoreInterfaceNames ["Hidden"]]).1
  have h := file_exclusion_by_base_name twinGenerator twinPackage hk
    { Package := 1, Decls := [.GenDecl [.TypeSpec ⟨⟨10, "First"⟩⟩]] }
    { Package := 101, Decls := [.GenDecl [.TypeSpec ⟨⟨110, "Second"⟩⟩]] } (by decide)
  have hyes : twinGenerator.excludeFiles.hasKey (afterLastSplash (twinPackage.Fset 1)) = true := by
    decide
  rcases h with h | h
  · exact ⟨hk, by decide, h.1, h.2.1, h.2.2, rfl⟩
  · exact absurd hyes (by rw [h.1]; decide)

/-! ## One entry per method -/

/-- C15: on a generator holding a package, a successful `parseMethods` returns as
many entries as the interface has methods, the entry at each index bearing the name
of the method at that index, and it is successful whenever the type of every method
is a signature; a successful `ParseData` returns, for the handles `loadAllInterfaces`
produced and in their order, the same handles with `Methods` set to what
`parseMethods` returns for them. -/
theorem parseMethods_one_entry_per_method (g : WrapperGenerator) (fp : PackagesPackage)
    (hg : g.foundPackage = some fp) (iface : Interface) :
    (∀ ms, parseMethods g iface = .ok ms →
      ms.length = iface.typeInterface.methods.length ∧
      ms.map (fun m => m.Name) = iface.typeInterface.methods.map (fun m => m.name) ∧
      ∀ i : Nat, (ms[i]?).map (fun m : Method => m.Name) =
        (iface.typeInterface.methods[i]?).map (fun m : Func => m.name)) ∧
    ((∀ m ∈ iface.typeInterface.methods, ∃ sig, m.typ = .Signature sig) →
      ∃ ms, parseMethods g iface = .ok ms) ∧
    (∀ (load : String → LoadResult) (g0 : WrapperGenerator) (name : String)
        (list : List Interface),
      getPackage load g0 = (none, g) → (ParseData load g0).1 = .ok (name, list) →
      ∃ scanned, loadAllInterfaces g = .ok scanned ∧
        List.Forall₂ (fun i i' => i'.Name = i.Name ∧ i'.typeInterface = i.typeInterface ∧
          i'.astTypeSpec = i.astTypeSpec ∧ parseMethods g i = .ok i'.Methods ∧
          i'.Methods.map (fun m => m.Name) = i.typeInterface.methods.map (fun m => m.name))
          scanned list) := by
  refine ⟨?_, ?_, ?_⟩
  · intro ms h
    have hn := (parseMethodsLoop_ok_inv g _ [] ms h).1
    simp only [List.map_nil, List.nil_append] at hn
    refine ⟨?_, hn, ?_⟩
    · have := congrArg List.length hn
      simpa using this
    · intro i
      have := congrArg (fun l => l[i]?) hn
      simpa [List.getElem?_map] using this
  · intro h
    exact parseMethodsLoop_ok_of_signatures g fp hg _ [] h
  · intro load g0 name list hp hd
    rw [ParseData_of_getPackage load g0 g fp hp hg] at hd
    refine ⟨_, loadAllInterfaces_eq g fp hg, ?_⟩
    cases hl : parseDataLoop g (expectedInterfaces g fp) with
    | error e =>
      rw [hl] at hd
      cases hd
    | ok l =>
      rw [hl] at hd
      cases hd
      refine (parseDataLoop_forall₂ g _ _ hl).imp ?_
      intro i i' hii
      have hn := (parseMethodsLoop_ok_inv g _ [] _ hii.1).1
      simp only [List.map_nil, List.nil_append] at hn
      exact ⟨hii.2.1, hii.2.2.1, hii.2.2.2, hii.1, hn⟩

/-- C15 at `scanPackage`: `ParseData` returns `TestInterface` with its one method
`TestMethod2` and then `Store` with none. -/
theorem parseMethods_one_entry_per_method_witness :
    scanGenerator.foundPackage = some scanPackage ∧
    (∃ list,
      (ParseData scanLoad (NewWrapperGenerator "./example"
        [WithIgnoreFileNames ["mock.go"], WithIgnoreInterfaceNames ["Hidden"]])).1 =
          .ok ("example", list) ∧
      list.map (fun i => (i.Name, i.Methods)) =
        [("TestInterface",
            [{ Name := "TestMethod2", Params := "ctx context.Context", Args := "ctx",
               Return := " error" }]),
          ("Store", [])] ∧
      ∃ scanned, loadAllInterfaces scanGenerator = .ok scanned ∧
        List.Forall₂ (fun i i' => i'.Name = i.Name ∧ i'.typeInterface = i.typeInterface ∧
          i'.astTypeSpec = i.astTypeSpec ∧ parseMethods scanGenerator i = .ok i'.Methods ∧
          i'.Methods.map (fun m => m.Name) = i.typeInterface.methods.map (fun m => m.name))
          scanned list) :=
  ⟨rfl, _, rfl, rfl,
    (parseMethods_one_entry_per_method scanGenerator scanPackage rfl exampleInterface).2.2
      scanLoad (NewWrapperGenerator "./example"
        [WithIgnoreFileNames ["mock.go"], WithIgnoreInterfaceNames ["Hidden"]])
      "example" _ rfl rfl⟩

/-! ## The text after the last slash -/

theorem lastIndexFrom_not_mem (sep : Char) (l : List Char) (i : Nat) (h : sep ∉ l) :
    lastIndexFrom sep i l = -1 := by
  induction l generalizing i with
  | nil => rfl
  | cons c cs ih =>
    have hc : ¬ c = sep := fun e => h (e ▸ List.mem_cons_self _ _)
    have hcs : sep ∉ cs := fun e => h (List.mem_cons_of_mem _ e)
    simp only [lastIndexFrom, ih (i + 1) hcs, if_true, hc, if_false]

theorem lastIndexFrom_mem (sep : Char) (l : List Char) (i : Nat) (h : sep ∈ l) :
    ∃ pre suf, l = pre ++ sep :: suf ∧ sep ∉ suf ∧
      lastIndexFrom sep i l = ((i + pre.length : Nat) : Int) := by
  induction l generalizing i with
  | nil => cases h
  | cons c cs ih =>
    by_cases hcs : sep ∈ cs
    · obtain ⟨pre, suf, hl, hs, hi⟩ := ih (i + 1) hcs
      refine ⟨c :: pre, suf, by rw [hl]; rfl, hs, ?_⟩
      have hne : ¬ (((i + 1 + pre.length : Nat) : Int) = -1) := by omega
      simp only [lastIndexFrom, hi, hne, if_false, List.length_cons]
      congr 1
      omega
    · have hc : c = sep := by
        rcases List.mem_cons.mp h with e | e
        · exact e.symm
        · exact absurd e hcs
      refine ⟨[], cs, by rw [hc]; rfl, hcs, ?_⟩
      simp only [lastIndexFrom, lastIndexFrom_not_mem sep cs (i + 1) hcs, if_true, hc,
        List.length_nil, Nat.add_zero]

theorem afterLastSplash_of_not_mem (s : String) (h : '/' ∉ s.data) : afterLastSplash s = s := by
  simp only [afterLastSplash, stringsLastIndexSlash, lastIndexFrom_not_mem '/' s.data 0 h,
    if_true]

theorem afterLastSplash_of_mem (s : String) (h : '/' ∈ s.data) :
    ∃ pre suf, s.data = pre ++ '/' :: suf ∧ '/' ∉ suf ∧ afterLastSplash s = ⟨suf⟩ ∧
      stringsLastIndexSlash s = (pre.length : Int) := by
  obtain ⟨pre, suf, hl, hs, hi⟩ := lastIndexFrom_mem '/' s.data 0 h
  refine ⟨pre, suf, hl, hs, ?_, by simpa [stringsLastIndexSlash] using hi⟩
  have hne : ¬ (((0 + pre.length : Nat) : Int) = -1) := by omega
  have hn : (((0 + pre.length : Nat) : Int) + 1).toNat = pre.length + 1 := by omega
  have e : afterLastSplash s = ⟨s.data.drop (pre.length + 1)⟩ := by
    simp only [afterLastSplash, stringsLastIndexSlash, hi, hne, if_false, hn]
  rw [e, hl]
  congr 1
  simp [List.drop_append_eq_append_drop]

/-- C17: for every string `s`, `afterLastSplash s` is a suffix of `s` without a
`"/"`; it is `s` when `s` holds no `"/"`, and otherwise `s` is some prefix, then
`"/"`, then the result; the index the slice starts at lies between `0` and the length
of `s`; when `s` ends in `"/"` the result is empty; and `afterLastSplash` applied to
its own result returns it. -/
theorem afterLastSplash_spec (s : String) :
    (afterLastSplash s).data <:+ s.data ∧
    '/' ∉ (afterLastSplash s).data ∧
    ('/' ∉ s.data → afterLastSplash s = s) ∧
    ('/' ∈ s.data → ∃ pre : String, s = pre ++ "/" ++ afterLastSplash s) ∧
    (0 ≤ stringsLastIndexSlash s + 1 ∧ stringsLastIndexSlash s + 1 ≤ (s.length : Int)) ∧
    (∀ t : String, s = t ++ "/" → afterLastSplash s = "") ∧
    afterLastSplash (afterLastSplash s) = afterLastSplash s := by
  by_cases h : '/' ∈ s.data
  · obtain ⟨pre, suf, hl, hs, ha, hi⟩ := afterLastSplash_of_mem s h
    have hlen : s.length = pre.length + (suf.length + 1) := by
      show s.data.length = _
      rw [hl]
      simp
    refine ⟨?_, ?_, fun hn => absurd h hn, fun _ => ⟨⟨pre⟩, ?_⟩, ?_, ?_, ?_⟩
    · rw [ha, hl]
      exact ⟨pre ++ ['/'], by simp⟩
    · rw [ha]
      exact hs
    · rw [ha]
      apply String.ext
      rw [hl]
      simp [String.data_append]
    · rw [hi, hlen]
      omega
    · intro t ht
      rw [ha]
      rcases List.eq_nil_or_concat suf with hnil | ⟨suf', x, hx⟩
      · rw [hnil]
      · exfalso
        have hd : s.data = t.data ++ ['/'] := by
          rw [ht]
          simp [String.data_append]
        rw [hl, hx, List.concat_eq_append] at hd
        have hd' : (pre ++ '/' :: suf') ++ [x] = t.data ++ ['/'] := by
          rw [← hd]
          simp
        have := (List.append_inj' hd' rfl).2
        have hx' : x = '/' := by simpa using this
        apply hs
        rw [hx, List.concat_eq_append, hx']
        simp
    · rw [ha]
      exact afterLastSplash_of_not_mem ⟨suf⟩ hs
  · have ha := afterLastSplash_of_not_mem s h
    have hi : stringsLastIndexSlash s = -1 := lastIndexFrom_not_mem '/' s.data 0 h
    refine ⟨?_, ?_, fun _ => ha, fun hm => absurd hm h, ?_, ?_, ?_⟩
    · rw [ha]
    · rw [ha]
      exact h
    · rw [hi]
      omega
    · intro t ht
      exfalso
      apply h
      rw [ht]
      simp [String.data_append]
    · rw [ha, ha]

/-- C17 at `"a/b/context"`, at `"context"` and at `"a/b/"`. -/
theorem afterLastSplash_spec_witness :
    afterLastSplash "a/b/context" = "context" ∧
    afterLastSplash "context" = "context" ∧
    afterLastSplash "a/b/" = "" ∧
    afterLastSplash (afterLastSplash "a/b/context") = afterLastSplash "a/b/context" :=
  ⟨by decide, (afterLastSplash_spec "context").2.2.1 (by decide),
    (afterLastSplash_spec "a/b/").2.2.2.2.2.1 "a/b" (by decide),
    (afterLastSplash_spec "a/b/context").2.2.2.2.2.2⟩

end Wrappergen
